import Mathlib

/-!
Verification development for the scheduler backend
(`backend/closing_schedule_calculator.py`, `backend/engine.py` and the
decision-demo package `backend/_qa/closing_decision_demo`).

Dates are modelled as natural numbers counting days from an epoch Monday, so
`d % 7 = 0` is a Monday, `3` a Thursday, `4` a Friday and `5` a Saturday,
matching Python's `date.weekday()` arithmetic used by the engine.  The
`EnhancedWorker` class itself is not part of the sources (only its callers
are), so its attributes are carried by a `Worker` record and its methods are
modelled from the spec where they are needed; every such definition is marked
`Modelled from the spec:` in its doc string.

Python floats are modelled by rationals.  The rational arithmetic operations
are restored to their definitional transparency below so that concrete runs
of the embedded engine can be evaluated inside proofs by `decide`; this
changes elaboration unfolding only, not what the kernel accepts.
-/

set_option allowUnsafeReducibility true
attribute [local semireducible] Rat.add Rat.mul Rat.sub Rat.div Rat.inv Rat.neg

namespace Scheduler


/-- Python's builtin `sorted` on a list of linearly ordered values
(ascending, stable). -/

def sortedList {α : Type} [LinearOrder α] (l : List α) : List α :=
  l.insertionSort (· ≤ ·)

/-- Fuel-driven body of `stepSeq`; the fuel only bounds the iteration count
so that the recursion is structural (and hence kernel-reducible), it never
runs out at the call sites. -/

def stepSeqF (n : Nat) : Nat → Nat → Nat → List Nat
  | 0, _, _ => []
  | fuel + 1, start, bound =>
    if start ≤ bound then start :: stepSeqF n fuel (start + n) bound else []

/-- The arithmetic-progression loops of `_select_optimal_weeks_min_gap`:
`w = start; while w <= bound: picks.append(w); w += n`.  All call sites pass
`n = max 2 interval ≥ 2`. -/

def stepSeq (n start bound : Nat) : List Nat :=
  stepSeqF n (bound + 1 - start) start bound

/-- The middle-gap loop of `_select_optimal_weeks_min_gap`
(`for i in range(len(req) - 1)`): for each consecutive pair of required weeks
`(a, b)` pick `a+n, a+2n, …` while `≤ b−n`. -/

def midSegs (n : Nat) : List Nat → List Nat
  | a :: b :: rest => stepSeq n (a + n) (b - n) ++ midSegs n (b :: rest)
  | _ => []

/-- Adjacent pairs of a list, in order: the `combined[i], combined[i+1]`
pairs scanned by the relief loop. -/

def adjPairs : List Nat → List (Nat × Nat)
  | a :: b :: rest => (a, b) :: adjPairs (b :: rest)
  | _ => []

/-- Body of `_select_optimal_weeks_min_gap` after the anchors have been
sanitized (`req = sorted([w for w in required_weeks_1_based if 1 <= w <=
total_weeks])`): fill the start gap, every middle gap and the end gap
greedily with step `n`, then keep the picks that are in range and not
required, deduplicated and sorted.  (`sorted(list(dict.fromkeys(...)))`
keeps each value once and sorts; `sortedList ∘ dedup` produces the same
list.) -/

def selectCore (totalWeeks n : Nat) (req : List Nat) : List Nat :=
  match req with
  | [] => stepSeq n 1 totalWeeks
  | b :: rest =>
    let startSeg := stepSeq n 1 (b - n)
    let mids := midSegs n (b :: rest)
    let endSeg := stepSeq n ((b :: rest).getLastD 0 + n) totalWeeks
    let picks := startSeg ++ mids ++ endSeg
    sortedList ((picks.filter
      (fun p => decide (p ∉ b :: rest ∧ 1 ≤ p ∧ p ≤ totalWeeks))).dedup)

/-- `ClosingScheduleCalculator._select_optimal_weeks_min_gap` (week-number
space, 1-based). -/

def selectOptimalWeeksMinGap (totalWeeks : Nat) (requiredWeeks1Based : List Nat)
    (intervalWeeks : Nat) : List Nat :=
  let n := max 2 intervalWeeks
  let req := sortedList (requiredWeeks1Based.filter
    (fun w => decide (1 ≤ w ∧ w ≤ totalWeeks)))
  selectCore totalWeeks n req

/-- Second definition for the refinement claim C3, following the spec's words
(§4.1 step 3): before the first required week `b` pick `1, 1+n, …` while
`≤ b−n`; between consecutive required weeks `a, b` pick `a+n, a+2n, …` while
`≤ b−n`; after the last required week pick `a+n, …` while `≤ total_weeks`;
with no required weeks pick `1, 1+n, …` up to `total_weeks`. -/

def specGreedySegments (totalWeeks : Nat) (req : List Nat) (n : Nat) : List Nat :=
  match req with
  | [] => stepSeq n 1 totalWeeks
  | b :: rest =>
    stepSeq n 1 (b - n) ++ midSegs n (b :: rest) ++
      stepSeq n ((b :: rest).getLastD 0 + n) totalWeeks

/-- The relief-scan loop of `calculate_worker_closing_schedule`
(lines 106–117): walk the adjacent pairs of `combined` carrying the
`applied` counter; where the gap is exactly `2n−1` and `a+n` is a fresh
in-range week, insert `a+n`, stopping once `applied` reaches the cap. -/

def reliefLoop (interval totalWeeks reliefMax : Nat)
    (required combined : List Nat) : List (Nat × Nat) → Nat → List Nat
  | [], _ => []
  | (a, b) :: rest, applied =>
    if b - a = 2 * interval - 1 ∧ 1 ≤ a + interval ∧ a + interval ≤ totalWeeks ∧
        (a + interval) ∉ combined ∧ (a + interval) ∉ required then
      if reliefMax ≤ applied + 1 then [a + interval]
      else (a + interval) ::
        reliefLoop interval totalWeeks reliefMax required combined rest (applied + 1)
    else reliefLoop interval totalWeeks reliefMax required combined rest applied

/-- All relief weeks inserted for a combined (required ∪ optimal) week list. -/

def reliefScan (interval totalWeeks reliefMax : Nat)
    (required combined : List Nat) : List Nat :=
  reliefLoop interval totalWeeks reliefMax required combined (adjPairs combined) 0

/-- `sorted(list(dict.fromkeys(a + b)))`: the sorted duplicate-free merge the
calculator uses for `combined` and for folding relief picks into the optimal
list.  (`dict.fromkeys` keeps each value once; after sorting, the result is
the same list.) -/

def combinedWeeks (a b : List Nat) : List Nat :=
  sortedList ((a ++ b).dedup)

/-- Constructor arguments of `ClosingScheduleCalculator`
(`gap_slack_weeks` is stored but unused by the algorithm). -/

structure CalcConfig where
  gapSlackWeeks : Nat := 0
  allowSingleReliefMin1 : Bool := true
  reliefMaxPerSemester : Nat := 1
deriving Repr, DecidableEq

/-- Week-number core of `calculate_worker_closing_schedule` (lines 92–120):
greedy selection followed by the optional relief pass, which runs only when
relief is enabled, at least one required week exists, `interval > 2` and the
per-semester cap is positive. -/

def calcOptimalWeeks (cfg : CalcConfig) (interval totalWeeks : Nat)
    (requiredWeeks : List Nat) : List Nat :=
  let optimal := selectOptimalWeeksMinGap totalWeeks requiredWeeks interval
  if cfg.allowSingleReliefMin1 = true ∧ requiredWeeks ≠ [] ∧ 2 < interval ∧
      0 < cfg.reliefMaxPerSemester then
    let combined := combinedWeeks requiredWeeks optimal
    let addedRelief :=
      reliefScan interval totalWeeks cfg.reliefMaxPerSemester requiredWeeks combined
    if addedRelief ≠ [] then combinedWeeks optimal addedRelief
    else optimal
  else optimal

/-- The per-worker mutable state of `EnhancedWorker` that the calculator, the
engine and the decision demo read and write.  `xTasks` and `yTasks` are
date-keyed maps (Python dicts keyed by `%d/%m/%Y` strings; the conversion
from a date to its string is injective, so keys are modelled by the dates
themselves). -/

structure Worker where
  id : String
  name : String
  closingInterval : Nat
  closingHistory : List Nat
  requiredClosingDates : List Nat
  optimalClosingDates : List Nat
  xTasks : List (Nat × String)
  yTasks : List (Nat × String)
  qualifications : List String
  qualificationIds : List Nat
  yTaskCounts : List (String × Nat)
  score : ℚ
  weekendsHomeOwed : Int
  homeWeeksOwed : Int
deriving Repr, DecidableEq

/-- Dict lookup on a date-keyed map. -/

def lookupDate (m : List (Nat × String)) (d : Nat) : Option String :=
  (m.find? (fun p => p.1 == d)).map (·.2)

/-- `date_str in worker.x_tasks`: key membership, any value counts. -/

def hasDateKey (m : List (Nat × String)) (d : Nat) : Bool :=
  (lookupDate m d).isSome

/-- `ClosingScheduleCalculator._get_x_task_weeks`: 0-based indices of the
semester weeks whose date is a key of the worker's `x_tasks`. -/

def getXTaskWeeks (w : Worker) (semesterWeeks : List Nat) : List Nat :=
  (semesterWeeks.enum.filter (fun p => hasDateKey w.xTasks p.2)).map (·.1)

/-- Output of `calculate_worker_closing_schedule`.  The calculation-log
strings are kept as a list but their text is abbreviated relative to the
Python f-strings (the log is a human-readable trace; no claim depends on
its wording). -/

structure CalcResult where
  requiredDates : List Nat
  optimalDates : List Nat
  finalWeekendsHomeOwed : Int
  calculationLog : List String
  userAlerts : List String
deriving Repr, DecidableEq

/-- `ClosingScheduleCalculator.calculate_worker_closing_schedule`: derive the
required weeks from the worker's X tasks, run the greedy min-gap selection
plus relief, and map week numbers back to dates (`semester_weeks[w-1]`);
`weekends_home_owed` is passed through unchanged. -/

def calcWorkerClosingSchedule (cfg : CalcConfig) (w : Worker)
    (semesterWeeks : List Nat) : CalcResult :=
  if semesterWeeks = [] then
    { requiredDates := [], optimalDates := [],
      finalWeekendsHomeOwed := w.weekendsHomeOwed,
      calculationLog := ["No semester weeks provided"], userAlerts := [] }
  else
    let interval := max 2 w.closingInterval
    let reqWeeks := sortedList ((getXTaskWeeks w semesterWeeks).map (· + 1))
    let totalWeeks := semesterWeeks.length
    let optimalWeeks := calcOptimalWeeks cfg interval totalWeeks reqWeeks
    let requiredDates := reqWeeks.map (fun k => semesterWeeks.getD (k - 1) 0)
    let optimalDates := (optimalWeeks.filter (fun k => decide (k ∉ reqWeeks))).map
      (fun k => semesterWeeks.getD (k - 1) 0)
    { requiredDates := requiredDates, optimalDates := optimalDates,
      finalWeekendsHomeOwed := w.weekendsHomeOwed,
      calculationLog := ["Min spacing for interval " ++ toString interval,
        "Found required weeks " ++ toString reqWeeks],
      userAlerts := [] }

/-- `ClosingScheduleCalculator.update_all_worker_schedules`, one worker:
store the freshly computed schedule on the worker. -/

def applyCalcToWorker (cfg : CalcConfig) (semesterWeeks : List Nat)
    (w : Worker) : Worker :=
  let r := calcWorkerClosingSchedule cfg w semesterWeeks
  { w with requiredClosingDates := r.requiredDates,
           optimalClosingDates := r.optimalDates,
           weekendsHomeOwed := r.finalWeekendsHomeOwed,
           homeWeeksOwed := r.finalWeekendsHomeOwed }

/-- `ClosingScheduleCalculator.update_all_worker_schedules`. -/

def updateAllWorkerSchedules (cfg : CalcConfig) (workers : List Worker)
    (semesterWeeks : List Nat) : List Worker :=
  workers.map (applyCalcToWorker cfg semesterWeeks)

/-- `ClosingScheduleCalculator.find_next_optimal_closing_date`: first semester
Friday strictly after `startAfter` whose week distance from every prior close
is at least `max 2 interval`. -/

def findNextOptimalClosingDate (closingHistory : List Nat) (intervalWeeks : Nat)
    (startAfter : Nat) (semesterWeeks : List Nat) : Option Nat :=
  let n := max 2 intervalWeeks
  let prior := sortedList closingHistory
  semesterWeeks.find? (fun d =>
    decide (startAfter < d ∧ ∀ p ∈ prior, n ≤ (max d p - min d p) / 7))

/-! ### Engine embedding (`backend/engine.py`) -/

/-- Y-task configuration read from `tasks.json` via `constants.py`
(`Y_TASK_TYPES`, `Y_TASK_DEFS`, `Y_TASK_AUTO_ASSIGN`, `Y_NAME_TO_ID`); the
engine treats it as fixed for a run, so it is a parameter here. -/

structure TaskEnv where
  yTaskTypes : List String
  requiresQual : String → Bool
  autoAssign : String → Bool
  nameToId : String → Option Nat

/-- Modelled from the spec: the `EnhancedWorker` methods the engine calls
whose implementation (`worker.py`) is not among the sources.  §4.3.1 names
`can_participate_in_closing`, `get_weeks_overdue`, `get_overdue_ratio`,
`get_weeks_until_due_to_close`, `check_multiple_y_tasks_per_week` and the
closing score hook; the engine only reads their values, so they are carried
as functions of the worker state. -/

structure WorkerPolicy where
  canParticipateInClosing : Worker → Bool
  weeksOverdue : Worker → Nat → Int
  overdueRatio : Worker → Nat → ℚ
  weeksUntilDue : Worker → Nat → Int
  weeklyYCount : Worker → Nat → Nat
  closeScore : Worker → Nat → ℚ

/-- Modelled from the spec: `EnhancedWorker.has_x_task_on_date` (missing
`worker.py`).  §3: "a non-empty, non-placeholder entry on a date is a hard
block"; modelled as key present with a non-empty value. -/

def hasXTaskOnDate (w : Worker) (d : Nat) : Bool :=
  match lookupDate w.xTasks d with
  | some v => decide (v ≠ "")
  | none => false

/-- Modelled from the spec: `EnhancedWorker.has_specific_x_task` — the
X-task value on the date equals the given name (used for the "Rituk"
sentinel). -/

def hasSpecificXTask (w : Worker) (d : Nat) (taskName : String) : Bool :=
  lookupDate w.xTasks d == some taskName

/-- Modelled from the spec: `EnhancedWorker.has_y_task_scheduled` — a Y task
is recorded for the date. -/

def hasYTaskScheduled (w : Worker) (d : Nat) : Bool :=
  (lookupDate w.yTasks d).isSome

/-- Modelled from the spec: `EnhancedWorker.assign_closing` — §4.3.1: "Each
successful weekend assignment appends the Friday to the worker's
`closing_history`". -/

def assignClosing (w : Worker) (friday : Nat) : Worker :=
  { w with closingHistory := w.closingHistory ++ [friday] }

/-- `worker.y_task_counts.get(task, 0) + 1` stored back into the dict. -/

def bumpCount (m : List (String × Nat)) (t : String) : List (String × Nat) :=
  if (m.find? (fun p => p.1 == t)).isSome then
    m.map (fun p => if p.1 == t then (p.1, p.2 + 1) else p)
  else m ++ [(t, 1)]

def bumpYCount (w : Worker) (t : String) : Worker :=
  { w with yTaskCounts := bumpCount w.yTaskCounts t }

/-- `sum(w.y_task_counts.values())`. -/

def totalY (w : Worker) : Nat :=
  (w.yTaskCounts.map (·.2)).sum

/-- ID-based qualification test used by the scarcity helpers
(`tid in getattr(w, 'qualification_ids', set())`). -/

def qualifiedById (env : TaskEnv) (w : Worker) (t : String) : Bool :=
  match env.nameToId t with
  | some tid => w.qualificationIds.contains tid
  | none => false

/-- `worker_qualifies_for` of `_assign_weekend_tasks`: qualified by numeric
ID or by name. -/

def workerQualifiesFor (env : TaskEnv) (t : String) (w : Worker) : Bool :=
  qualifiedById env w t || w.qualifications.contains t

/-- `compute_qualification_scarcity`: per-task availability count. -/

def yTaskAvailability (env : TaskEnv) (workers : List Worker) (t : String) : Nat :=
  (workers.filter (fun w =>
    !env.requiresQual t || qualifiedById env w t || w.qualifications.contains t)).length

/-- `compute_qualification_scarcity`: `scarcity[t] = 1 / max(1, availability)`,
with the engine's `.get(t, 0)` default for tasks outside `Y_TASK_TYPES`. -/

def taskScarcityMap (env : TaskEnv) (workers : List Worker) (t : String) : ℚ :=
  if env.yTaskTypes.contains t then
    1 / (max 1 (yTaskAvailability env workers t) : ℚ)
  else 0

/-- `compute_worker_scarcity_index`: average scarcity over the worker's
qualified task types (0 if none). -/

def workerScarcityIndex (env : TaskEnv) (workers : List Worker) (w : Worker) : ℚ :=
  let vals := (env.yTaskTypes.filter (fun t =>
    !env.requiresQual t || qualifiedById env w t || w.qualifications.contains t)).map
      (taskScarcityMap env workers)
  if vals.isEmpty then 0 else vals.sum / (vals.length : ℚ)

/-- The engine's `worker_scarcity_index` dict, looked up by id with default
0. -/

def scarcityIndexOf (env : TaskEnv) (workers : List Worker) (wid : String) : ℚ :=
  match workers.find? (fun w => w.id == wid) with
  | some w => workerScarcityIndex env workers w
  | none => 0

/-- `_prioritize_tasks_by_scarcity`: stable sort, most scarce first
(`sorted(tasks, key=scarcity.get, reverse=True)`). -/

def prioritizeTasksByScarcity (sc : String → ℚ) (tasks : List String) : List String :=
  tasks.insertionSort (fun a b => sc b ≤ sc a)

/-- `AssignmentError` (engine value object). -/

structure AssignmentError where
  taskType : String
  date : Nat
  reason : String
  severity : String
deriving Repr, DecidableEq

/-- The engine state threaded through a run: the mutable worker roster, the
assignment grid, the log and the error list. -/

structure EngineState where
  workers : List Worker
  assignments : List (Nat × List (String × String))
  logs : List String
  errors : List AssignmentError
deriving Repr, DecidableEq

/-- `assignments[d].append(pair)`: update the entry of the (unique-keyed)
dict.  (For a date missing from the initialized grid Python would raise
`KeyError` and abort the run; the embedding appends a fresh key at the end
instead, and no claim is evaluated at such an input.) -/

def assignAt : List (Nat × List (String × String)) → Nat → (String × String) →
    List (Nat × List (String × String))
  | [], d, pair => [(d, [pair])]
  | q :: rest, d, pair =>
    if q.1 = d then (q.1, q.2 ++ [pair]) :: rest
    else q :: assignAt rest d pair

/-- `assignments.get(d, [])`. -/

def assignsAt : List (Nat × List (String × String)) → Nat → List (String × String)
  | [], _ => []
  | q :: rest, d => if q.1 = d then q.2 else assignsAt rest d

def weekendDatesOf (thursday : Nat) (weekendTasks : List (Nat × List String)) :
    List Nat :=
  [thursday, thursday + 1, thursday + 2].filter
    (fun d => (weekendTasks.find? (fun q => q.1 == d)).isSome)

def hasNonRitukXOnFriday (w : Worker) (friday : Nat) : Bool :=
  hasXTaskOnDate w friday && !(hasSpecificXTask w friday "Rituk")

/-- `has_x_task_conflict`: an X task on any of Thu/Fri/Sat. -/

def hasXTaskConflict (w : Worker) (thursday : Nat) : Bool :=
  [thursday, thursday + 1, thursday + 2].any (hasXTaskOnDate w)

/-- `eligible_base` of `_assign_weekend_tasks`: may participate, not already
assigned this weekend, did not close the preceding Friday, and has no
required close the following Friday.  X-task conflicts do NOT exclude — they
only deprioritize. -/

def eligibleBase (policy : WorkerPolicy) (friday : Nat)
    (assignedIds : List String) (w : Worker) : Bool :=
  policy.canParticipateInClosing w && !(assignedIds.contains w.id) &&
    !(w.closingHistory.contains (friday - 7)) &&
    !(w.requiredClosingDates.contains (friday + 7))

/-- Accumulator for the weekend tiers: live roster, grid, logs, the
`assigned_closers` ids and the remaining `unassigned_tasks`. -/

structure WeekendAcc where
  workers : List Worker
  assignments : List (Nat × List (String × String))
  logs : List String
  assignedIds : List String
  unassigned : List String
deriving Repr, DecidableEq

/-- One selection tier of `_assign_weekend_tasks`: walk the (pre-sorted)
candidates; stop when slots are filled or tasks run out (and, for the
overdue tier, when the current candidate is no longer overdue); skip
candidates with no qualifying task (logging a warning in the Rituk tier);
otherwise assign the scarcest qualifying task, append the Friday to the
worker's history, optionally apply the closing score hook, and bump the
task count. -/

def weekendTierLoop (env : TaskEnv) (policy : WorkerPolicy) (sc : String → ℚ)
    (numSlots : Nat) (friday : Nat) (wdates : List Nat) (checkOverdue : Bool)
    (applyScore : Bool) (warnNoQualify : Bool) (logTag : String) :
    List String → WeekendAcc → WeekendAcc
  | [], acc => acc
  | wid :: rest, acc =>
    if numSlots ≤ acc.assignedIds.length ∨ acc.unassigned = [] then acc
    else
      match acc.workers.find? (fun w => w.id == wid) with
      | none =>
        weekendTierLoop env policy sc numSlots friday wdates checkOverdue
          applyScore warnNoQualify logTag rest acc
      | some w =>
        if checkOverdue ∧ policy.weeksOverdue w friday ≤ 0 then acc
        else
          match prioritizeTasksByScarcity sc
              (acc.unassigned.filter (fun t => workerQualifiesFor env t w)) with
          | [] =>
            let acc' := if warnNoQualify then
                { acc with logs := acc.logs ++
                  ["WARNING: RITUK closer " ++ w.name ++ " has no qualifying Y task"] }
              else acc
            weekendTierLoop env policy sc numSlots friday wdates checkOverdue
              applyScore warnNoQualify logTag rest acc'
          | task :: _ =>
            let w1 := assignClosing w friday
            let w2 := if applyScore then
                { w1 with score := policy.closeScore w1 friday } else w1
            let w3 := bumpYCount w2 task
            let acc' : WeekendAcc :=
              { workers := acc.workers.map (fun x => if x.id == wid then w3 else x),
                assignments := wdates.foldl (fun m d => assignAt m d (task, wid))
                  acc.assignments,
                logs := acc.logs ++
                  ["Assigned " ++ logTag ++ " " ++ w.name ++ " to " ++ task],
                assignedIds := acc.assignedIds ++ [wid],
                unassigned := acc.unassigned.erase task }
            weekendTierLoop env policy sc numSlots friday wdates checkOverdue
              applyScore warnNoQualify logTag rest acc'

/-- Sort key of tier 2a (severely overdue): X conflict last, overdue ratio
and weeks overdue descending, then score, total Y count, id. -/

def tier2aKey (policy : WorkerPolicy) (thursday friday : Nat) (w : Worker) :
    Bool ×ₗ (ℚ ×ₗ (Int ×ₗ (ℚ ×ₗ (Nat ×ₗ String)))) :=
  toLex (hasXTaskConflict w thursday, toLex (-(policy.overdueRatio w friday),
    toLex (-(policy.weeksOverdue w friday),
      toLex (w.score, toLex (totalY w, w.id)))))

/-- Sort key of tier 2b (optimal-date candidates). -/

def tier2bKey (thursday : Nat) (w : Worker) : Bool ×ₗ (ℚ ×ₗ (Nat ×ₗ String)) :=
  toLex (hasXTaskConflict w thursday, toLex (w.score, toLex (totalY w, w.id)))

/-- Sort key of tier 3 (closest to due). -/

def tier3Key (policy : WorkerPolicy) (thursday friday : Nat) (w : Worker) :
    Bool ×ₗ (Int ×ₗ (ℚ ×ₗ (Nat ×ₗ String))) :=
  toLex (hasXTaskConflict w thursday, toLex (policy.weeksUntilDue w friday,
    toLex (w.score, toLex (totalY w, w.id))))

/-- `SchedulingEngineV2._update_missed_optimal_close`: drop the missed
Friday from the worker's optimal dates and append (sorted) the earliest
feasible future Friday, if any. -/

def updateMissedOptimalClose (policy : WorkerPolicy) (w : Worker)
    (missedFriday : Nat) (semesterWeeks : List Nat) (logs : List String) :
    Worker × List String :=
  if !(policy.canParticipateInClosing w) then (w, logs)
  else if w.optimalClosingDates.contains missedFriday then
    let opt1 := w.optimalClosingDates.erase missedFriday
    match findNextOptimalClosingDate w.closingHistory w.closingInterval
        (missedFriday + 1) semesterWeeks with
    | some nxt =>
      if !(opt1.contains nxt) then
        ({ w with optimalClosingDates := sortedList (opt1 ++ [nxt]) },
          logs ++ ["Rescheduled optimal for " ++ w.name])
      else ({ w with optimalClosingDates := opt1 }, logs)
    | none => ({ w with optimalClosingDates := opt1 }, logs)
  else (w, logs)

/-- Step 3 of `_assign_weekend_tasks`: every worker that had this Friday as
an optimal date but was not picked gets it rescheduled forward. -/

def missedOptimalPass (policy : WorkerPolicy) (friday : Nat)
    (semesterWeeks : List Nat) (assignedIds : List String) :
    List Worker → List String → List Worker × List String
  | [], logs => ([], logs)
  | w :: rest, logs =>
    let (w', logs') :=
      if !(assignedIds.contains w.id) && w.optimalClosingDates.contains friday then
        updateMissedOptimalClose policy w friday semesterWeeks logs
      else (w, logs)
    let (rest', logs'') := missedOptimalPass policy friday semesterWeeks
      assignedIds rest logs'
    (w' :: rest', logs'')

/-- The remaining-candidate pool the error block tests: can participate, no
blocking (non-Rituk) X task on the Friday, not among the assigned closers,
and closed the immediately preceding Friday. -/

def lastWeekOnlyPool (policy : WorkerPolicy) (friday : Nat)
    (assignedIds : List String) (workers : List Worker) : List Worker :=
  workers.filter (fun w =>
    policy.canParticipateInClosing w && !(hasNonRitukXOnFriday w friday) &&
      !(assignedIds.contains w.id) && w.closingHistory.contains (friday - 7))

/-- Error block of `_assign_weekend_tasks` (lines 427–448): one error per
unfilled task; severity `error` when some remaining candidate closed last
week, else `warning`. -/

def weekendErrors (thursday : Nat) (unassigned : List String)
    (lastWeekSome : Bool) : List AssignmentError :=
  if lastWeekSome then
    unassigned.map (fun t => AssignmentError.mk t thursday
      ("Missing closer for " ++ t ++
        ": only remaining candidates closed last week") "error")
  else
    unassigned.map (fun t => AssignmentError.mk t thursday
      ("No qualified and available closers for weekend task " ++ t) "warning")

/-- Tiers 1–3 of `_assign_weekend_tasks` (Rituk, overdue, optimal-date,
closest-to-due), leaving the accumulated roster/grid/ids/tasks. -/

def weekendTiers (env : TaskEnv) (policy : WorkerPolicy) (sc : String → ℚ)
    (st : EngineState) (thursday : Nat)
    (weekendTasks : List (Nat × List String)) : WeekendAcc :=
  let friday := thursday + 1
  let wdates := weekendDatesOf thursday weekendTasks
  let allWeekendTasks := sortedList (((weekendTasks.map (·.2)).flatten).dedup)
  let numSlots := allWeekendTasks.length
  let logs0 := st.logs ++ ["Weekend of " ++ toString thursday ++ " requires " ++
    toString numSlots ++ " closers"]
  let logs1 := logs0 ++ (allWeekendTasks.filter (fun t => !env.autoAssign t)).map
    (fun t => "Weekend task " ++ t ++ " is set to manual assignment only")
  let unassigned0 := allWeekendTasks.filter env.autoAssign
  let acc0 : WeekendAcc := ⟨st.workers, st.assignments, logs1, [], unassigned0⟩
  -- 1. Rituk closers (roster order, no sort)
  let ritukIds := (st.workers.filter (fun w =>
    policy.canParticipateInClosing w && hasSpecificXTask w friday "Rituk")).map (·.id)
  let acc1 := weekendTierLoop env policy sc numSlots friday wdates false false
    true "RITUK closer" ritukIds acc0
  -- 2a. Severely overdue
  let acc2 :=
    if acc1.unassigned ≠ [] ∧ acc1.assignedIds.length < numSlots then
      let cands := ((acc1.workers.filter
          (eligibleBase policy friday acc1.assignedIds)).insertionSort
        (fun w1 w2 => tier2aKey policy thursday friday w1 ≤
          tier2aKey policy thursday friday w2)).map (·.id)
      weekendTierLoop env policy sc numSlots friday wdates true true false
        "OVERDUE" cands acc1
    else acc1
  -- 2b. Friday is an optimal closing date
  let acc3 :=
    if acc2.unassigned ≠ [] ∧ acc2.assignedIds.length < numSlots then
      let cands := ((acc2.workers.filter (fun w =>
          eligibleBase policy friday acc2.assignedIds w &&
            w.optimalClosingDates.contains friday)).insertionSort
        (fun w1 w2 => tier2bKey thursday w1 ≤ tier2bKey thursday w2)).map (·.id)
      weekendTierLoop env policy sc numSlots friday wdates false true false
        "optimal-date" cands acc2
    else acc2
  -- 3. Closest to due
  if acc3.unassigned ≠ [] ∧ acc3.assignedIds.length < numSlots then
    let cands := ((acc3.workers.filter
        (eligibleBase policy friday acc3.assignedIds)).insertionSort
      (fun w1 w2 => tier3Key policy thursday friday w1 ≤
        tier3Key policy thursday friday w2)).map (·.id)
    weekendTierLoop env policy sc numSlots friday wdates false true false
      "proximity" cands acc3
  else acc3

/-- `SchedulingEngineV2._assign_weekend_tasks`. -/

def assignWeekendTasks (env : TaskEnv) (policy : WorkerPolicy)
    (sc : String → ℚ) (st : EngineState) (thursday : Nat)
    (weekendTasks : List (Nat × List String)) (semesterWeeks : List Nat) :
    EngineState :=
  let friday := thursday + 1
  let acc := weekendTiers env policy sc st thursday weekendTasks
  let mop := missedOptimalPass policy friday semesterWeeks
    acc.assignedIds acc.workers acc.logs
  let lastWeekSome :=
    !(lastWeekOnlyPool policy friday acc.assignedIds mop.1).isEmpty
  let errs := if acc.unassigned ≠ [] then
      weekendErrors thursday acc.unassigned lastWeekSome
    else []
  { workers := mop.1,
    assignments := acc.assignments,
    logs := mop.2 ++ errs.map (fun e =>
      (if e.severity == "error" then "ERROR: " else "WARNING: ") ++ e.reason),
    errors := st.errors ++ errs }

/-- `_was_recently_assigned`: the worker appears in yesterday's
assignments. -/

def wasRecentlyAssigned (wid : String) (currentDate : Nat)
    (assignments : List (Nat × List (String × String))) : Bool :=
  (assignsAt assignments (currentDate - 1)).any (fun p => p.2 == wid)

/-- `_find_optimal_task_for_worker`: among the tasks the worker qualifies
for (tasks that require no qualification count), a scarce worker
(`index > 0.5`) gets the scarcest task, a regular worker the most common
one. -/

def findOptimalTaskForWorker (env : TaskEnv) (sc : String → ℚ)
    (workerScarcity : ℚ) (w : Worker) (availableTasks : List String) :
    Option String :=
  if availableTasks = [] then none
  else
    let qualified := availableTasks.filter (fun t =>
      !env.requiresQual t || workerQualifiesFor env t w)
    if qualified = [] then none
    else if (1 : ℚ) / 2 < workerScarcity then
      (prioritizeTasksByScarcity sc qualified).head?
    else
      (qualified.insertionSort (fun a b => sc a ≤ sc b)).head?

/-- Weekday sort key: total Y count, score, scarcity index descending,
id. -/

def weekdayKey (widx : String → ℚ) (w : Worker) :
    Nat ×ₗ (ℚ ×ₗ (ℚ ×ₗ String)) :=
  toLex (totalY w, toLex (w.score, toLex (-(widx w.id), w.id)))

/-- Accumulator for the weekday loop. -/

structure WeekdayAcc where
  workers : List Worker
  assignments : List (Nat × List (String × String))
  logs : List String
  unassigned : List String
deriving Repr, DecidableEq

/-- Inner candidate walk of `_assign_weekday_tasks` for one weekly-cap tier:
skip workers already assigned today; on Mon–Wed skip a worker assigned
yesterday while an alternative remains; otherwise assign the optimal task
for the worker and bump the task count. -/

def weekdayInnerLoop (env : TaskEnv) (sc : String → ℚ) (widx : String → ℚ)
    (taskDate : Nat) (sortedIds : List String) :
    List String → List String → WeekdayAcc → WeekdayAcc
  | [], _, acc => acc
  | wid :: rest, assignedToday, acc =>
    if acc.unassigned = [] then acc
    else if assignedToday.contains wid then
      weekdayInnerLoop env sc widx taskDate sortedIds rest assignedToday acc
    else
      match acc.workers.find? (fun w => w.id == wid) with
      | none => weekdayInnerLoop env sc widx taskDate sortedIds rest assignedToday acc
      | some w =>
        if taskDate % 7 < 3 ∧ wasRecentlyAssigned wid taskDate acc.assignments ∧
            0 < (sortedIds.filter (fun id2 =>
              !(assignedToday.contains id2) &&
                !(wasRecentlyAssigned id2 taskDate acc.assignments))).length then
          weekdayInnerLoop env sc widx taskDate sortedIds rest assignedToday acc
        else
          match findOptimalTaskForWorker env sc (widx wid) w acc.unassigned with
          | none =>
            weekdayInnerLoop env sc widx taskDate sortedIds rest assignedToday acc
          | some task =>
            let acc' : WeekdayAcc :=
              { workers := acc.workers.map (fun x =>
                  if x.id == wid then bumpYCount x task else x),
                assignments := assignAt acc.assignments taskDate (task, wid),
                logs := acc.logs ++
                  ["Assigned weekday task " ++ task ++ " to " ++ w.name],
                unassigned := acc.unassigned.erase task }
            weekdayInnerLoop env sc widx taskDate sortedIds rest
              (assignedToday ++ [wid]) acc'

/-- One weekly-cap tier (`for max_weekly_tasks in range(0, 4)` body):
filter the available pool by the weekly cap, put non-weekend-closers first,
sort both groups by the fairness key, and walk the candidates. -/

def weekdayCapTier (env : TaskEnv) (policy : WorkerPolicy) (sc : String → ℚ)
    (widx : String → ℚ) (taskDate weekStart : Nat)
    (closersThisWeek availIds : List String) (cap : Nat) (acc : WeekdayAcc) :
    WeekdayAcc :=
  let avail := acc.workers.filter (fun w => availIds.contains w.id)
  let eligible := avail.filter (fun w => policy.weeklyYCount w weekStart ≤ cap)
  if eligible.isEmpty then acc
  else
    let nonClosers := eligible.filter (fun w => !(closersThisWeek.contains w.id))
    let closers := eligible.filter (fun w => closersThisWeek.contains w.id)
    let sortedIds := ((nonClosers.insertionSort
        (fun w1 w2 => weekdayKey widx w1 ≤ weekdayKey widx w2)) ++
      (closers.insertionSort
        (fun w1 w2 => weekdayKey widx w1 ≤ weekdayKey widx w2))).map (·.id)
    weekdayInnerLoop env sc widx taskDate sortedIds sortedIds [] acc

/-- The progressive weekly-cap relaxation 0 → 1 → 2 → 3, stopping once all
tasks are assigned; the structural fuel argument is 4 at the call site,
enough for the four tiers. -/

def weekdayCapLoop (env : TaskEnv) (policy : WorkerPolicy) (sc : String → ℚ)
    (widx : String → ℚ) (taskDate weekStart : Nat)
    (closersThisWeek availIds : List String) : Nat → Nat → WeekdayAcc → WeekdayAcc
  | 0, _, acc => acc
  | fuel + 1, cap, acc =>
    let acc' := weekdayCapTier env policy sc widx taskDate weekStart
      closersThisWeek availIds cap acc
    if acc'.unassigned = [] then acc'
    else if cap < 3 then
      weekdayCapLoop env policy sc widx taskDate weekStart closersThisWeek
        availIds fuel (cap + 1) acc'
    else acc'

/-- `SchedulingEngineV2._assign_weekday_tasks`. -/

def assignWeekdayTasks (env : TaskEnv) (policy : WorkerPolicy)
    (sc : String → ℚ) (widx : String → ℚ) (st : EngineState)
    (taskDate : Nat) (tasksNeeded : List String) : EngineState :=
  let assignedToday0 := (assignsAt st.assignments taskDate).map (·.2)
  let baseAvailable := st.workers.filter (fun w =>
    !(assignedToday0.contains w.id) && !(w.closingHistory.contains taskDate))
  let preferredAvailable := baseAvailable.filter (fun w =>
    !(hasXTaskOnDate w taskDate))
  let availIds := (if preferredAvailable.isEmpty then baseAvailable
    else preferredAvailable).map (·.id)
  let notYetAssigned := tasksNeeded.filter (fun t =>
    !((assignsAt st.assignments taskDate).any (fun p => p.1 == t)))
  let unassigned0 := notYetAssigned.filter env.autoAssign
  let logs0 := st.logs ++ (notYetAssigned.filter (fun t => !env.autoAssign t)).map
    (fun t => "Task " ++ t ++ " is set to manual assignment only")
  let weekStart := taskDate - taskDate % 7
  let weekFriday := weekStart + 4
  let closersThisWeek := (st.workers.filter (fun w =>
    w.closingHistory.contains weekFriday)).map (·.id)
  let acc0 : WeekdayAcc := ⟨st.workers, st.assignments, logs0, unassigned0⟩
  let acc := weekdayCapLoop env policy sc widx taskDate weekStart
    closersThisWeek availIds 4 0 acc0
  let errs := acc.unassigned.map (fun t => AssignmentError.mk t taskDate
    ("No qualified workers available for " ++ t) "error")
  { workers := acc.workers,
    assignments := acc.assignments,
    logs := acc.logs ++ errs.map (fun e => "ERROR: " ++ e.reason),
    errors := st.errors ++ errs }

/-- The scoring-config knobs the engine reads (`ScoringConfig`). -/

structure ScoringCfg where
  closingReliefEnabled : Bool := true
  closingReliefMaxPerSemester : Nat := 1
deriving Repr, DecidableEq

/-- The calculator the engine constructs
(`ClosingScheduleCalculator(allow_single_relief_min1=…, relief_max_per_semester=…)`). -/

def engineCalcConfig (cfg : ScoringCfg) : CalcConfig :=
  { gapSlackWeeks := 0,
    allowSingleReliefMin1 := cfg.closingReliefEnabled,
    reliefMaxPerSemester := cfg.closingReliefMaxPerSemester }

/-- All Fridays within `[startD, endD]`. -/

def fridaysInRange (startD endD : Nat) : List Nat :=
  ((List.range (endD + 1 - startD)).map (startD + ·)).filter
    (fun d => d % 7 == 4)

/-- The day-by-day walk of `assign_tasks_for_range` step 2: Thu/Fri/Sat are
grouped into one weekend unit processed once (the cursor then jumps to the
following Sunday); any other day is a weekday unit. The structural fuel
argument bounds the number of units; since the cursor strictly increases,
`endD + 1 - cursor` units always suffice, so the 0-fuel branch, which
returns the state unchanged exactly as the `cursor > endD` exit does, is
never the deciding one when called through `walkDates`. -/

def walkDatesF (env : TaskEnv) (policy : WorkerPolicy) (sc : String → ℚ)
    (widx : String → ℚ) (tasksByDate : List (Nat × List String))
    (allFridays : List Nat) (endD : Nat) :
    Nat → Nat → EngineState → EngineState
  | 0, _, st => st
  | fuel + 1, cursor, st =>
    if cursor ≤ endD then
      if cursor % 7 = 3 ∨ cursor % 7 = 4 ∨ cursor % 7 = 5 then
        let thursday := cursor - (cursor % 7 - 3)
        let weekendTasks := [thursday, thursday + 1, thursday + 2].filterMap
          (fun d => (tasksByDate.find? (fun q => q.1 == d)).map (fun q => (d, q.2)))
        let st1 := { st with logs := st.logs ++
          ["--- Processing Weekend: " ++ toString thursday ++ " ---"] }
        let st2 := if (weekendTasks.map (·.2)).any (fun l => !l.isEmpty) then
            assignWeekendTasks env policy sc st1 thursday weekendTasks allFridays
          else st1
        walkDatesF env policy sc widx tasksByDate allFridays endD fuel
          (thursday + 3) st2
      else
        let todays := ((tasksByDate.find? (fun q => q.1 == cursor)).map (·.2)).getD []
        let st' := if (tasksByDate.find? (fun q => q.1 == cursor)).isSome ∧
            todays ≠ [] then
            assignWeekdayTasks env policy sc widx st cursor todays
          else st
        walkDatesF env policy sc widx tasksByDate allFridays endD fuel
          (cursor + 1) st'
    else st

def walkDates (env : TaskEnv) (policy : WorkerPolicy) (sc : String → ℚ)
    (widx : String → ℚ) (tasksByDate : List (Nat × List String))
    (allFridays : List Nat) (endD : Nat) (cursor : Nat) (st : EngineState) :
    EngineState :=
  walkDatesF env policy sc widx tasksByDate allFridays endD
    (endD + 1 - cursor) cursor st

/-- `SchedulingEngineV2.assign_tasks_for_range`: initialize the grid,
recompute every worker's closing schedule over the range's Fridays,
precompute scarcity once, walk the range, and recompute the schedules once
more at the end. -/

def assignTasksForRange (env : TaskEnv) (policy : WorkerPolicy)
    (cfg : ScoringCfg) (workers : List Worker) (startD endD : Nat)
    (tasksByDate : List (Nat × List String)) : EngineState :=
  let assignments0 := (tasksByDate.filter
    (fun p => startD ≤ p.1 ∧ p.1 ≤ endD)).map (fun p => (p.1, ([] : List (String × String))))
  let allFridays := fridaysInRange startD endD
  let logs0 : List String :=
    if allFridays = [] then ["No weekends in the selected date range."] else []
  let workers1 := updateAllWorkerSchedules (engineCalcConfig cfg) workers
    (if allFridays ≠ [] then allFridays else [startD])
  let sc := taskScarcityMap env workers1
  let widx := scarcityIndexOf env workers1
  let st1 : EngineState :=
    { workers := workers1, assignments := assignments0, logs := logs0, errors := [] }
  let st2 := walkDates env policy sc widx tasksByDate allFridays endD startD st1
  let semWeeks := fridaysInRange startD endD
  let workersF := updateAllWorkerSchedules (engineCalcConfig cfg) st2.workers semWeeks
  { st2 with workers := workersF,
             logs := st2.logs ++
               ["Closing schedule recalculation completed after Y task assignments"] }

/-! ### A concrete worker policy, for evaluating the engine at inputs -/

/-- Modelled from the spec: the most recent close at or before the date
(spec §4.1 `_get_last_closing_date` semantics, without the synthetic
fallback). -/

def lastCloseBefore (w : Worker) (f : Nat) : Option Nat :=
  (w.closingHistory.filter (fun d => d ≤ f)).foldl
    (fun acc d => match acc with
      | none => some d
      | some m => some (max m d)) none

/-- Modelled from the spec: `get_weeks_overdue` — weeks since the last close
beyond the closing interval (0 with no history). -/

def specWeeksOverdue (w : Worker) (f : Nat) : Int :=
  match lastCloseBefore w f with
  | some d => (((f - d) / 7 : Nat) : Int) - ((max 2 w.closingInterval : Nat) : Int)
  | none => 0

/-- Modelled from the spec: `get_overdue_ratio = weeks_overdue / interval`. -/

def specOverdueRatio (w : Worker) (f : Nat) : ℚ :=
  (specWeeksOverdue w f : ℚ) / ((max 2 w.closingInterval : Nat) : ℚ)

/-- Modelled from the spec: `get_weeks_until_due_to_close`. -/

def specWeeksUntilDue (w : Worker) (f : Nat) : Int :=
  -(specWeeksOverdue w f)

/-- Modelled from the spec: `check_multiple_y_tasks_per_week` — Y tasks
recorded in the Monday-to-Sunday week starting at `weekStart`. -/

def specWeeklyYCount (w : Worker) (weekStart : Nat) : Nat :=
  (w.yTasks.filter (fun p => weekStart ≤ p.1 && p.1 < weekStart + 7)).length

/-- Modelled from the spec: the closing score hook adjusts only `score`; the
exact formula lives in the missing `scoring.py`, so the default instance
keeps the score unchanged (universal theorems quantify over the hook). -/

def specCloseScore (w : Worker) (_f : Nat) : ℚ := w.score

/-- Modelled from the spec: a concrete `WorkerPolicy` instance used to
evaluate the engine at concrete inputs. -/

def defaultPolicy : WorkerPolicy :=
  { canParticipateInClosing := fun _ => true,
    weeksOverdue := specWeeksOverdue,
    overdueRatio := specOverdueRatio,
    weeksUntilDue := specWeeksUntilDue,
    weeklyYCount := specWeeklyYCount,
    closeScore := specCloseScore }

/-! ### Decision-demo embedding (`backend/_qa/closing_decision_demo`) -/

/-- `DecisionConfig` of `policy.py` (weights as exact rationals; the float
constants involved are dyadic except the 0.3 fairness factor, whose rounding
no claim depends on). -/

structure DecisionConfig where
  enforceMinGap : Bool := true
  enforceAvailability : Bool := true
  enforceQualification : Bool := true
  enforceConflictWithXY : Bool := true
  weeklyCapacity : Nat := 2
  weightProximity : ℚ := 2
  weightSpacingBeyondMin : ℚ := 1/2
  weightScarcityProtect : ℚ := 1
  weightFairness : ℚ := 1
  deterministicTieBreak : Bool := true
deriving Repr, DecidableEq

/-- `policy.get_required_closers_for_week`. -/

def getRequiredClosersForWeek (policy : WorkerPolicy) (workers : List Worker)
    (friday : Nat) : List Worker :=
  workers.filter (fun w => w.requiredClosingDates.contains friday &&
    policy.canParticipateInClosing w)

/-- `policy.is_worker_available_for_closing`. -/

def isWorkerAvailableForClosing (w : Worker) (friday : Nat) : Bool :=
  !(hasXTaskOnDate w friday) && !(hasYTaskScheduled w friday) &&
    !(hasYTaskScheduled w (friday - 1)) && !(hasYTaskScheduled w (friday + 1))

/-- `policy.respects_min_gap`. -/

def respectsMinGap (w : Worker) (friday : Nat) : Bool :=
  w.closingHistory.all (fun prev =>
    max 2 w.closingInterval ≤ (max friday prev - min friday prev) / 7)

/-- `policy.is_qualified_for_role`. -/

def isQualifiedForRole (w : Worker) (role : Option String) : Bool :=
  match role with
  | none => true
  | some r => w.qualifications.contains r

/-- `policy.respects_required_anchor_spacing`. -/

def respectsRequiredAnchorSpacing (w : Worker) (friday : Nat) : Bool :=
  w.requiredClosingDates.all (fun a =>
    a == friday || max 2 w.closingInterval ≤ (max friday a - min friday a) / 7)

/-- `eligibility.compute_eligible_workers`. -/

def computeEligibleWorkers (policy : WorkerPolicy) (cfg : DecisionConfig)
    (workers : List Worker) (friday : Nat) (role : Option String) :
    List Worker :=
  workers.filter (fun w =>
    policy.canParticipateInClosing w &&
      (!cfg.enforceAvailability || isWorkerAvailableForClosing w friday) &&
      (!cfg.enforceMinGap || respectsMinGap w friday) &&
      (!cfg.enforceQualification || isQualifiedForRole w role))

/-- `scoring.proximity_to_optimal_bonus` (value component). -/

def proximityToOptimalBonus (w : Worker) (friday : Nat) : ℚ :=
  if w.optimalClosingDates.contains friday then 1
  else if w.optimalClosingDates.contains (friday - 7) then 1/2
  else if w.optimalClosingDates.contains (friday + 7) then 1/2
  else if w.optimalClosingDates.contains (friday - 14) then 1/2
  else if w.optimalClosingDates.contains (friday + 14) then 1/2
  else 0

/-- `scoring.spacing_beyond_min_bonus` (value component); `weeks_since` is a
signed floor division, non-positive whenever the Friday is less than a week
past the latest recorded close. -/

def spacingBeyondMinBonus (w : Worker) (friday : Nat) : ℚ :=
  match w.closingHistory.foldl (fun acc d => match acc with
    | none => some d
    | some m => some (max m d)) none with
  | none => 0
  | some last =>
    if friday < last + 7 then 0
    else
      let ws := (friday - last) / 7
      let extra := ws - max 2 w.closingInterval
      min 1 ((extra : ℚ) / 4)

/-- `scoring.compute_fairness_adjustment` (value component). -/

def computeFairnessAdjustment (w : Worker) : ℚ :=
  -(max 0 (min 3 w.score)) * (3/10)

/-- `types.CandidateScore`. -/

structure CandidateScore where
  workerId : String
  base : ℚ
  proximityBonus : ℚ
  spacingBonus : ℚ
  scarcityPenalty : ℚ
  fairnessAdjustment : ℚ
  total : ℚ
  reasons : List String
deriving Repr, DecidableEq

/-- `scoring.score_candidates`: weighted soft score per candidate, sorted by
`(−total, worker_id)`. -/

def scoreCandidates (env : TaskEnv) (workers candidates : List Worker)
    (friday : Nat) (cfg : DecisionConfig) : List CandidateScore :=
  let scored := candidates.map (fun w =>
    let prox := proximityToOptimalBonus w friday
    let space := spacingBeyondMinBonus w friday
    let fair := computeFairnessAdjustment w
    let scarcity := workerScarcityIndex env workers w
    let total := cfg.weightProximity * prox + cfg.weightSpacingBeyondMin * space +
      cfg.weightFairness * fair - cfg.weightScarcityProtect * scarcity
    CandidateScore.mk w.id 0 prox space scarcity fair total [])
  scored.insertionSort (fun s1 s2 =>
    toLex (-s1.total, s1.workerId) ≤ toLex (-s2.total, s2.workerId))

/-- `types.Assignment`. -/

structure Assignment where
  workerId : String
  isRequired : Bool
  role : Option String
deriving Repr, DecidableEq

/-- `types.DecisionLogEntry` (numeric payload kept as key/value pairs). -/

structure DecisionLogEntry where
  workerId : String
  message : String
  data : List (String × ℚ)
deriving Repr, DecidableEq

/-- `types.WeekDecisionResult`. -/

structure WeekDecisionResult where
  weekFriday : Nat
  assignments : List Assignment
  candidateScores : List CandidateScore
  logs : List DecisionLogEntry
  errors : List String
deriving Repr, DecidableEq

/-- `validate.validate_min_gap`. -/

def validateMinGap (w : Worker) : List String :=
  (adjPairs (sortedList w.closingHistory)).filterMap (fun p =>
    if (p.2 - p.1) / 7 < max 2 w.closingInterval then
      some ("Min-gap violated for " ++ w.name)
    else none)

/-- `validate.validate_no_conflicts`. -/

def validateNoConflicts (w : Worker) : List String :=
  (w.closingHistory.map (fun d =>
    (if hasXTaskOnDate w d then ["X-task conflict for " ++ w.name] else []) ++
    (if hasYTaskScheduled w d || hasYTaskScheduled w (d - 1) ||
        hasYTaskScheduled w (d + 1) then
      ["Y-task conflict for " ++ w.name] else []))).flatten

/-- `validate.validate_capacity`. -/

def validateCapacity (assignments : List (String × String))
    (weeklyCapacity : Nat) : List String :=
  if weeklyCapacity < assignments.length then ["Weekly capacity exceeded"]
  else []

/-- The post-hoc validation loop of `selector.select_closers_for_week`
(lines 78–90): for each assigned worker, tentatively add the Friday to the
closing history (if absent), run the min-gap and conflict validators, then
remove every occurrence of the Friday from the history. -/

def demoValidationPass (weekFriday : Nat) :
    List Assignment → List Worker → List String → List Worker × List String
  | [], ws, errs => (ws, errs)
  | a :: rest, ws, errs =>
    match ws.find? (fun w => w.id == a.workerId) with
    | none => demoValidationPass weekFriday rest ws errs
    | some w =>
      let w1 := if !(w.closingHistory.contains weekFriday) then
          { w with closingHistory := sortedList (w.closingHistory ++ [weekFriday]) }
        else w
      let errs' := errs ++ validateMinGap w1 ++ validateNoConflicts w1
      let w2 := { w1 with
        closingHistory := w1.closingHistory.filter (fun d => d ≠ weekFriday) }
      demoValidationPass weekFriday rest
        (ws.map (fun x => if x.id == a.workerId then w2 else x)) errs'

/-- `selector.select_closers_for_week` (returns the result and the roster
after the call, since the Python function mutates the workers in place). -/

def selectClosersForWeek (env : TaskEnv) (policy : WorkerPolicy)
    (cfg : DecisionConfig) (workers : List Worker) (weekFriday : Nat)
    (rolesNeeded : List String) : WeekDecisionResult × List Worker :=
  let required := getRequiredClosersForWeek policy workers weekFriday
  let weeklyCapacity := if rolesNeeded ≠ [] then
      min cfg.weeklyCapacity rolesNeeded.length
    else cfg.weeklyCapacity
  let assignments0 := required.map (fun w => Assignment.mk w.id true none)
  let logs0 := required.map (fun w => DecisionLogEntry.mk w.id "assigned_required" [])
  let remainingSlots := weeklyCapacity - assignments0.length
  let step2 : List Assignment × List DecisionLogEntry × List CandidateScore :=
    if 0 < remainingSlots then
      let candidates := computeEligibleWorkers policy cfg workers weekFriday none
      let candidates := candidates.filter (fun w =>
        !(required.any (fun r => r.id == w.id)) &&
          respectsRequiredAnchorSpacing w weekFriday)
      let scored := scoreCandidates env workers candidates weekFriday cfg
      let opts := scored.take remainingSlots
      (assignments0 ++ opts.map (fun s => Assignment.mk s.workerId false none),
       logs0 ++ opts.map (fun s => DecisionLogEntry.mk s.workerId "assigned_optional"
         [("total", s.total), ("proximity", s.proximityBonus),
          ("spacing", s.spacingBonus), ("scarcity", s.scarcityPenalty),
          ("fairness", s.fairnessAdjustment)]),
       scored)
    else (assignments0, logs0, [])
  let assignments1 := step2.1
  let capErrors := validateCapacity
    (assignments1.map (fun a => (a.role.getD "closing", a.workerId))) weeklyCapacity
  let (workers', valErrors) :=
    demoValidationPass weekFriday assignments1 workers capErrors
  (WeekDecisionResult.mk weekFriday assignments1 step2.2.2 step2.2.1 valErrors,
    workers')


/-! ### Theorems -/

theorem stepSeqF_congr {n : Nat} (hn : n ≠ 0) :
    ∀ (fuel₁ fuel₂ start bound : Nat), bound + 1 - start ≤ fuel₁ →
      bound + 1 - start ≤ fuel₂ →
      stepSeqF n fuel₁ start bound = stepSeqF n fuel₂ start bound := by
  intro fuel₁
  induction fuel₁ with
  | zero =>
    intro fuel₂ start bound h1 h2
    cases fuel₂ with
    | zero => rfl
    | succ f =>
      rw [stepSeqF, stepSeqF, if_neg (by omega)]
  | succ f ih =>
    intro fuel₂ start bound h1 h2
    cases fuel₂ with
    | zero =>
      rw [stepSeqF, stepSeqF, if_neg (by omega)]
    | succ f₂ =>
      rw [stepSeqF, stepSeqF]
      by_cases h : start ≤ bound
      · rw [if_pos h, if_pos h, ih f₂ (start + n) bound (by omega) (by omega)]
      · rw [if_neg h, if_neg h]

theorem stepSeq_nil (n start bound : Nat) (h : bound < start) :
    stepSeq n start bound = [] := by
  rw [stepSeq, show bound + 1 - start = 0 from by omega]
  rfl

theorem stepSeq_cons (n start bound : Nat) (hn : n ≠ 0) (h : start ≤ bound) :
    stepSeq n start bound = start :: stepSeq n (start + n) bound := by
  rw [stepSeq, stepSeq, show bound + 1 - start = (bound - start) + 1 from by omega,
    stepSeqF, if_pos h]
  rw [stepSeqF_congr hn (bound - start) (bound + 1 - (start + n)) (start + n) bound
    (by omega) (by omega)]

theorem mem_stepSeq {n : Nat} (hn : n ≠ 0) (start bound x : Nat) :
    x ∈ stepSeq n start bound ↔ ∃ k, x = start + k * n ∧ x ≤ bound := by
  by_cases h : start ≤ bound
  · rw [stepSeq_cons n start bound hn h, List.mem_cons,
      mem_stepSeq hn (start + n) bound x]
    constructor
    · rintro (rfl | ⟨k, rfl, hk⟩)
      · exact ⟨0, by simp, h⟩
      · exact ⟨k + 1, by ring_nf, hk⟩
    · rintro ⟨k, rfl, hk⟩
      cases k with
      | zero => exact Or.inl (by simp)
      | succ k => exact Or.inr ⟨k, by ring_nf, hk⟩
  · rw [stepSeq_nil n start bound (by omega)]
    simp only [List.not_mem_nil, false_iff, not_exists, not_and]
    intro k hx
    omega
termination_by bound + 1 - start
decreasing_by omega

theorem stepSeq_bounds {n : Nat} (hn : n ≠ 0) {start bound x : Nat}
    (hx : x ∈ stepSeq n start bound) : start ≤ x ∧ x ≤ bound := by
  obtain ⟨k, rfl, hk⟩ := (mem_stepSeq hn start bound x).1 hx
  omega

/-- Within one `stepSeq` run, two distinct picks differ by at least `n`. -/

theorem stepSeq_pairwise_gap {n : Nat} (hn : n ≠ 0) {start bound x y : Nat}
    (hx : x ∈ stepSeq n start bound) (hy : y ∈ stepSeq n start bound)
    (hlt : x < y) : x + n ≤ y := by
  obtain ⟨k, rfl, _⟩ := (mem_stepSeq hn start bound x).1 hx
  obtain ⟨m, rfl, _⟩ := (mem_stepSeq hn start bound y).1 hy
  have hkm : k < m := by
    rcases Nat.lt_or_ge k m with h | h
    · exact h
    · exfalso; have := Nat.mul_le_mul_right n h; omega
  have := Nat.mul_le_mul_right n hkm
  calc start + k * n + n = start + (k + 1) * n := by ring
    _ ≤ start + m * n := by
        have : (k + 1) * n ≤ m * n := Nat.mul_le_mul_right n hkm
        omega

theorem stepSeq_sorted {n : Nat} (hn : n ≠ 0) (start bound : Nat) :
    (stepSeq n start bound).Sorted (· < ·) := by
  by_cases h : start ≤ bound
  · rw [stepSeq_cons n start bound hn h]
    refine List.sorted_cons.2 ⟨?_, stepSeq_sorted hn (start + n) bound⟩
    intro b hb
    have := (stepSeq_bounds hn hb).1
    omega
  · rw [stepSeq_nil n start bound (by omega)]
    exact List.sorted_nil
termination_by bound + 1 - start
decreasing_by omega

/-! ### General list lemmas -/

theorem getLastD_mem {b : Nat} {rest : List Nat} :
    (b :: rest).getLastD 0 ∈ b :: rest := by
  induction rest generalizing b with
  | nil => simp [List.getLastD]
  | cons c rest ih =>
    rw [List.getLastD_cons]
    exact List.mem_cons_of_mem _ ih

theorem sorted_head_le {b : Nat} {rest : List Nat}
    (h : (b :: rest).Sorted (· ≤ ·)) : ∀ z ∈ b :: rest, b ≤ z := by
  intro z hz
  rcases List.mem_cons.1 hz with rfl | hz
  · exact le_refl _
  · exact (List.sorted_cons.1 h).1 z hz

theorem sorted_le_getLastD {b : Nat} {rest : List Nat}
    (h : (b :: rest).Sorted (· ≤ ·)) : ∀ z ∈ b :: rest, z ≤ (b :: rest).getLastD 0 := by
  induction rest generalizing b with
  | nil => simp [List.getLastD]
  | cons c rest ih =>
    intro z hz
    rw [List.getLastD_cons]
    rcases List.mem_cons.1 hz with rfl | hz
    · exact le_trans (List.rel_of_sorted_cons h c (List.mem_cons_self c rest))
        (ih (List.sorted_cons.1 h).2 c (List.mem_cons_self c rest))
    · exact ih (List.sorted_cons.1 h).2 z hz

theorem adjPairs_mem_both {l : List Nat} {a b : Nat}
    (h : (a, b) ∈ adjPairs l) : a ∈ l ∧ b ∈ l := by
  induction l with
  | nil => simp [adjPairs] at h
  | cons x rest ih =>
    cases rest with
    | nil => simp [adjPairs] at h
    | cons y rest' =>
      rw [adjPairs, List.mem_cons] at h
      rcases h with h | h
      · obtain ⟨rfl, rfl⟩ := Prod.mk.injEq .. ▸ And.intro (congrArg Prod.fst h) (congrArg Prod.snd h)
        exact ⟨List.mem_cons_self _ _, List.mem_cons_of_mem _ (List.mem_cons_self _ _)⟩
      · obtain ⟨ha, hb⟩ := ih h
        exact ⟨List.mem_cons_of_mem _ ha, List.mem_cons_of_mem _ hb⟩

theorem adjPairs_rel_of_pairwise {l : List Nat} {r : Nat → Nat → Prop} {a b : Nat}
    (hp : l.Pairwise r) (h : (a, b) ∈ adjPairs l) : r a b := by
  induction l with
  | nil => simp [adjPairs] at h
  | cons x rest ih =>
    cases rest with
    | nil => simp [adjPairs] at h
    | cons y rest' =>
      rw [adjPairs, List.mem_cons] at h
      rcases h with h | h
      · obtain ⟨rfl, rfl⟩ := Prod.mk.injEq .. ▸ And.intro (congrArg Prod.fst h) (congrArg Prod.snd h)
        exact (List.pairwise_cons.1 hp).1 b (List.mem_cons_self _ _)
      · exact ih (List.pairwise_cons.1 hp).2 h

/-- In a `≤`-sorted list every element is on one side of any adjacent pair. -/

theorem adjPairs_between_of_sorted {l : List Nat} {a b : Nat}
    (hs : l.Sorted (· ≤ ·)) (h : (a, b) ∈ adjPairs l) :
    ∀ z ∈ l, z ≤ a ∨ b ≤ z := by
  induction l with
  | nil => simp [adjPairs] at h
  | cons x rest ih =>
    cases rest with
    | nil => simp [adjPairs] at h
    | cons y rest' =>
      rw [adjPairs, List.mem_cons] at h
      rcases h with h | h
      · obtain ⟨rfl, rfl⟩ := Prod.mk.injEq .. ▸ And.intro (congrArg Prod.fst h) (congrArg Prod.snd h)
        intro z hz
        rcases List.mem_cons.1 hz with rfl | hz
        · exact Or.inl (le_refl _)
        · exact Or.inr (sorted_head_le (List.sorted_cons.1 hs).2 z hz)
      · intro z hz
        rcases List.mem_cons.1 hz with rfl | hz
        · exact Or.inl (le_trans (List.rel_of_sorted_cons hs _
            (List.mem_cons_self _ _)) (sorted_head_le (List.sorted_cons.1 hs).2 a
              (adjPairs_mem_both h).1))
        · exact ih (List.sorted_cons.1 hs).2 h z hz

theorem adjPairs_map_fst (l : List Nat) :
    (adjPairs l).map Prod.fst = l.dropLast := by
  induction l with
  | nil => rfl
  | cons x rest ih =>
    cases rest with
    | nil => rfl
    | cons y rest' =>
      rw [adjPairs, List.map_cons, ih]
      rfl

/-- Membership in the middle segments, with the bracketing anchors. -/

theorem mem_midSegs {n x : Nat} {l : List Nat} (hx : x ∈ midSegs n l) :
    ∃ a c, (a, c) ∈ adjPairs l ∧ x ∈ stepSeq n (a + n) (c - n) := by
  induction l with
  | nil => simp [midSegs] at hx
  | cons b rest ih =>
    cases rest with
    | nil => simp [midSegs] at hx
    | cons c rest' =>
      rw [midSegs, List.mem_append] at hx
      rcases hx with hx | hx
      · exact ⟨b, c, List.mem_cons_self _ _, hx⟩
      · obtain ⟨a', c', hp, hm⟩ := ih hx
        exact ⟨a', c', List.mem_cons_of_mem _ hp, hm⟩

theorem midSegs_subset {n x : Nat} {a c : Nat} {l : List Nat}
    (hp : (a, c) ∈ adjPairs l) (hx : x ∈ stepSeq n (a + n) (c - n)) :
    x ∈ midSegs n l := by
  induction l with
  | nil => simp [adjPairs] at hp
  | cons b rest ih =>
    cases rest with
    | nil => simp [adjPairs] at hp
    | cons c' rest' =>
      rw [adjPairs, List.mem_cons] at hp
      rw [midSegs, List.mem_append]
      rcases hp with hp | hp
      · obtain ⟨rfl, rfl⟩ := Prod.mk.injEq .. ▸ And.intro (congrArg Prod.fst hp) (congrArg Prod.snd hp)
        exact Or.inl hx
      · exact Or.inr (ih hp)

/-- In a `≤`-sorted list, a pairwise relation holds for any two members in
strictly increasing value order. -/

theorem rel_of_sorted_pairwise {l : List Nat} {r : Nat → Nat → Prop}
    (hs : l.Sorted (· ≤ ·)) (hp : l.Pairwise r) {x y : Nat}
    (hx : x ∈ l) (hy : y ∈ l) (hlt : x < y) : r x y := by
  induction l with
  | nil => simp at hx
  | cons h t ih =>
    rcases List.mem_cons.1 hx with rfl | hx' <;> rcases List.mem_cons.1 hy with rfl | hy'
    · omega
    · exact (List.pairwise_cons.1 hp).1 y hy'
    · exact absurd (List.rel_of_sorted_cons hs x hx') (by omega)
    · exact ih (List.sorted_cons.1 hs).2 (List.pairwise_cons.1 hp).2 hx' hy'

/-- Any two distinct members of `req ∪ specGreedySegments` are at least `n`
weeks apart, provided the required anchors are themselves at least `n`
apart. -/

theorem spec_pairwise_gap {n totalWeeks : Nat} {req : List Nat}
    (hn : 2 ≤ n) (hsort : req.Sorted (· ≤ ·))
    (hchain : req.Chain' (fun a c => a + n ≤ c))
    (hbnd : ∀ w ∈ req, 1 ≤ w ∧ w ≤ totalWeeks) :
    ∀ x ∈ req ++ specGreedySegments totalWeeks req n,
      ∀ y ∈ req ++ specGreedySegments totalWeeks req n, x < y → x + n ≤ y := by
  have hn0 : n ≠ 0 := by omega
  haveI : IsTrans Nat (fun a c => a + n ≤ c) := ⟨fun a b c h1 h2 => by omega⟩
  have hpw : req.Pairwise (fun a c => a + n ≤ c) := List.chain'_iff_pairwise.1 hchain
  cases req with
  | nil =>
    intro x hx y hy hlt
    simp only [specGreedySegments, List.nil_append] at hx hy
    exact stepSeq_pairwise_gap hn0 hx hy hlt
  | cons b rest =>
    set req := b :: rest with hreq
    set last := (b :: rest).getLastD 0 with hlastdef
    have hlastmem : last ∈ req := getLastD_mem
    have hhead : ∀ z ∈ req, b ≤ z := sorted_head_le hsort
    have hlast : ∀ z ∈ req, z ≤ last := sorted_le_getLastD hsort
    have hclass : ∀ z, z ∈ req ++ specGreedySegments totalWeeks req n →
        z ∈ req ∨ z ∈ stepSeq n 1 (b - n) ∨
        (∃ a c, (a, c) ∈ adjPairs req ∧ z ∈ stepSeq n (a + n) (c - n)) ∨
        z ∈ stepSeq n (last + n) totalWeeks := by
      intro z hz
      rcases List.mem_append.1 hz with hz | hz
      · exact Or.inl hz
      · rw [specGreedySegments] at hz
        rcases List.mem_append.1 hz with hz | hz
        · rcases List.mem_append.1 hz with hz | hz
          · exact Or.inr (Or.inl hz)
          · exact Or.inr (Or.inr (Or.inl (mem_midSegs hz)))
        · exact Or.inr (Or.inr (Or.inr hz))
    intro x hx y hy hlt
    rcases hclass x hx with hx' | hx' | ⟨a, c, hpx, hx'⟩ | hx' <;>
      rcases hclass y hy with hy' | hy' | ⟨a', c', hpy, hy'⟩ | hy'
    -- x ∈ req cases
    · exact rel_of_sorted_pairwise hsort hpw hx' hy' hlt
    · have h1 := stepSeq_bounds hn0 hy'
      have h2 := hhead x hx'
      omega
    · have h1 := stepSeq_bounds hn0 hy'
      have ha' := hbnd a' (adjPairs_mem_both hpy).1
      rcases adjPairs_between_of_sorted hsort hpy x hx' with h | h
      · omega
      · omega
    · have h1 := stepSeq_bounds hn0 hy'
      have h2 := hlast x hx'
      omega
    -- x ∈ start segment cases
    · have h1 := stepSeq_bounds hn0 hx'
      have h2 := hhead y hy'
      omega
    · exact stepSeq_pairwise_gap hn0 hx' hy' hlt
    · have h1 := stepSeq_bounds hn0 hx'
      have h2 := stepSeq_bounds hn0 hy'
      have h3 := hhead a' (adjPairs_mem_both hpy).1
      omega
    · have h1 := stepSeq_bounds hn0 hx'
      have h2 := stepSeq_bounds hn0 hy'
      have h3 := hlast b (List.mem_cons_self _ _)
      omega
    -- x ∈ middle segment cases
    · have h1 := stepSeq_bounds hn0 hx'
      have ha := hbnd a (adjPairs_mem_both hpx).1
      rcases adjPairs_between_of_sorted hsort hpx y hy' with h | h
      · omega
      · omega
    · have h1 := stepSeq_bounds hn0 hx'
      have h2 := stepSeq_bounds hn0 hy'
      have h3 := hhead a (adjPairs_mem_both hpx).1
      omega
    · -- mid vs mid
      have hbx := stepSeq_bounds hn0 hx'
      have hby := stepSeq_bounds hn0 hy'
      have ha := hbnd a (adjPairs_mem_both hpx).1
      have ha' := hbnd a' (adjPairs_mem_both hpy).1
      rcases adjPairs_between_of_sorted hsort hpx a' (adjPairs_mem_both hpy).1 with h1 | h1
      · rcases adjPairs_between_of_sorted hsort hpy c (adjPairs_mem_both hpx).2 with h2 | h2
        · omega
        · rcases adjPairs_between_of_sorted hsort hpy a (adjPairs_mem_both hpx).1 with h3 | h3
          · have haa : a = a' := le_antisymm h3 h1
            rcases adjPairs_between_of_sorted hsort hpx c' (adjPairs_mem_both hpy).2 with h4 | h4
            · omega
            · have hcc : c' = c := le_antisymm h2 h4
              subst haa
              rw [hcc] at hy'
              exact stepSeq_pairwise_gap hn0 hx' hy' hlt
          · omega
      · omega
    · have h1 := stepSeq_bounds hn0 hx'
      have h2 := stepSeq_bounds hn0 hy'
      have h3 := hlast c (adjPairs_mem_both hpx).2
      omega
    -- x ∈ end segment cases
    · have h1 := stepSeq_bounds hn0 hx'
      have h2 := hlast y hy'
      omega
    · have h1 := stepSeq_bounds hn0 hx'
      have h2 := stepSeq_bounds hn0 hy'
      have h3 := hlast b (List.mem_cons_self _ _)
      omega
    · have h1 := stepSeq_bounds hn0 hx'
      have h2 := stepSeq_bounds hn0 hy'
      have h3 := hlast c' (adjPairs_mem_both hpy).2
      omega
    · exact stepSeq_pairwise_gap hn0 hx' hy' hlt

theorem midSegs_lower {n b : Nat} {rest : List Nat} (hn0 : n ≠ 0)
    (hsort : (b :: rest).Sorted (· ≤ ·)) :
    ∀ y ∈ midSegs n (b :: rest), b + n ≤ y := by
  intro y hy
  obtain ⟨a, c, hp, hm⟩ := mem_midSegs hy
  have h1 := sorted_head_le hsort a (adjPairs_mem_both hp).1
  have h2 := (stepSeq_bounds hn0 hm).1
  omega

theorem midSegs_sorted {n : Nat} (hn0 : n ≠ 0) :
    ∀ {l : List Nat}, l.Sorted (· ≤ ·) → (midSegs n l).Sorted (· < ·) := by
  intro l
  induction l with
  | nil => intro _; simp [midSegs]
  | cons a rest ih =>
    intro hsort
    cases rest with
    | nil => simp [midSegs]
    | cons b rest' =>
      rw [midSegs]
      refine List.pairwise_append.2 ⟨stepSeq_sorted hn0 _ _,
        ih (List.sorted_cons.1 hsort).2, ?_⟩
      intro x hx y hy
      have h1 := (stepSeq_bounds hn0 hx).2
      have h2 := midSegs_lower hn0 (List.sorted_cons.1 hsort).2 y hy
      omega

/-- All raw greedy picks are in range and avoid the required anchors. -/

theorem picks_pred {n totalWeeks : Nat} {b : Nat} {rest : List Nat}
    (hn : 2 ≤ n) (hsort : (b :: rest).Sorted (· ≤ ·))
    (hbnd : ∀ w ∈ b :: rest, 1 ≤ w ∧ w ≤ totalWeeks) :
    ∀ p ∈ stepSeq n 1 (b - n) ++ midSegs n (b :: rest) ++
        stepSeq n ((b :: rest).getLastD 0 + n) totalWeeks,
      p ∉ b :: rest ∧ 1 ≤ p ∧ p ≤ totalWeeks := by
  have hn0 : n ≠ 0 := by omega
  have hblast := hbnd _ (@getLastD_mem b rest)
  have hb := hbnd b (List.mem_cons_self _ _)
  intro p hp
  rcases List.mem_append.1 hp with hp | hp
  · rcases List.mem_append.1 hp with hp | hp
    · have h1 := stepSeq_bounds hn0 hp
      refine ⟨fun hmem => ?_, by omega, by omega⟩
      have := sorted_head_le hsort p hmem
      omega
    · obtain ⟨a, c, hpair, hm⟩ := mem_midSegs hp
      have h1 := stepSeq_bounds hn0 hm
      have ha := hbnd a (adjPairs_mem_both hpair).1
      have hc := hbnd c (adjPairs_mem_both hpair).2
      refine ⟨fun hmem => ?_, by omega, by omega⟩
      rcases adjPairs_between_of_sorted hsort hpair p hmem with h | h <;> omega
  · have h1 := stepSeq_bounds hn0 hp
    refine ⟨fun hmem => ?_, by omega, by omega⟩
    have := sorted_le_getLastD hsort p hmem
    omega

/-- The concatenated greedy picks are strictly sorted. -/

theorem picks_sorted (totalWeeks : Nat) {n : Nat} {b : Nat} {rest : List Nat}
    (hn : 2 ≤ n) (hsort : (b :: rest).Sorted (· ≤ ·)) :
    (stepSeq n 1 (b - n) ++ midSegs n (b :: rest) ++
      stepSeq n ((b :: rest).getLastD 0 + n) totalWeeks).Sorted (· < ·) := by
  have hn0 : n ≠ 0 := by omega
  refine List.pairwise_append.2 ⟨List.pairwise_append.2
    ⟨stepSeq_sorted hn0 _ _, midSegs_sorted hn0 hsort, ?_⟩,
    stepSeq_sorted hn0 _ _, ?_⟩
  · intro x hx y hy
    have h1 := stepSeq_bounds hn0 hx
    have h2 := midSegs_lower hn0 hsort y hy
    omega
  · intro x hx y hy
    have hy1 := (stepSeq_bounds hn0 hy).1
    rcases List.mem_append.1 hx with hx | hx
    · have h1 := stepSeq_bounds hn0 hx
      have h2 := sorted_le_getLastD hsort b (List.mem_cons_self _ _)
      omega
    · obtain ⟨a, c, hpair, hm⟩ := mem_midSegs hx
      have h1 := stepSeq_bounds hn0 hm
      have h2 := sorted_le_getLastD hsort c (adjPairs_mem_both hpair).2
      omega

/-- Claim C3 core: for sane inputs the code's selection (with its trailing
filter/dedup/sort normalization) is exactly the per-segment greedy placement
described by the spec. -/

theorem selectCore_eq_specGreedySegments {n totalWeeks : Nat} {req : List Nat}
    (hn : 2 ≤ n) (hsort : req.Sorted (· ≤ ·))
    (hbnd : ∀ w ∈ req, 1 ≤ w ∧ w ≤ totalWeeks) :
    selectCore totalWeeks n req = specGreedySegments totalWeeks req n := by
  cases req with
  | nil => rfl
  | cons b rest =>
    show sortedList (((stepSeq n 1 (b - n) ++ midSegs n (b :: rest) ++
        stepSeq n ((b :: rest).getLastD 0 + n) totalWeeks).filter
          (fun p => decide (p ∉ b :: rest ∧ 1 ≤ p ∧ p ≤ totalWeeks))).dedup) = _
    have hfil := List.filter_eq_self.2 (fun a ha =>
      decide_eq_true_eq.mpr (picks_pred hn hsort hbnd a ha))
    rw [hfil]
    have hsortp := picks_sorted totalWeeks hn hsort
    have hnodup : (stepSeq n 1 (b - n) ++ midSegs n (b :: rest) ++
        stepSeq n ((b :: rest).getLastD 0 + n) totalWeeks).Nodup :=
      hsortp.imp (fun h => ne_of_lt h)
    rw [hnodup.dedup]
    have hle : (stepSeq n 1 (b - n) ++ midSegs n (b :: rest) ++
        stepSeq n ((b :: rest).getLastD 0 + n) totalWeeks).Sorted (· ≤ ·) :=
      hsortp.imp (fun h => le_of_lt h)
    exact hle.insertionSort_eq

/-! ### `sortedList` / `combinedWeeks` facts -/

theorem mem_sortedList {α : Type} [LinearOrder α] {x : α} {l : List α} :
    x ∈ sortedList l ↔ x ∈ l :=
  (List.perm_insertionSort _ l).mem_iff

theorem sortedList_sorted {α : Type} [LinearOrder α] (l : List α) :
    (sortedList l).Sorted (· ≤ ·) :=
  List.sorted_insertionSort _ l

theorem mem_combinedWeeks {x : Nat} {a b : List Nat} :
    x ∈ combinedWeeks a b ↔ x ∈ a ∨ x ∈ b := by
  rw [combinedWeeks, mem_sortedList, List.mem_dedup, List.mem_append]

theorem combinedWeeks_sorted (a b : List Nat) :
    (combinedWeeks a b).Sorted (· ≤ ·) :=
  sortedList_sorted _

theorem combinedWeeks_nodup (a b : List Nat) : (combinedWeeks a b).Nodup :=
  ((List.perm_insertionSort _ _).nodup_iff).2 (List.nodup_dedup _)

/-- An adjacent pair in a `≤`-sorted duplicate-free list is strictly
increasing. -/

theorem adjPairs_lt_of_sorted_nodup {l : List Nat} {x y : Nat}
    (hs : l.Sorted (· ≤ ·)) (hd : l.Nodup) (h : (x, y) ∈ adjPairs l) : x < y :=
  lt_of_le_of_ne (adjPairs_rel_of_pairwise hs h)
    (adjPairs_rel_of_pairwise hd h)

/-! ### Relief-loop facts -/

theorem mem_reliefLoop {interval totalWeeks reliefMax : Nat}
    {required combined : List Nat} {pairs : List (Nat × Nat)} {applied r : Nat}
    (h : r ∈ reliefLoop interval totalWeeks reliefMax required combined pairs applied) :
    ∃ a b, (a, b) ∈ pairs ∧ b - a = 2 * interval - 1 ∧ 1 ≤ a + interval ∧
      a + interval ≤ totalWeeks ∧ (a + interval) ∉ combined ∧
      (a + interval) ∉ required ∧ r = a + interval := by
  induction pairs generalizing applied with
  | nil => simp [reliefLoop] at h
  | cons p rest ih =>
    obtain ⟨a, b⟩ := p
    rw [reliefLoop] at h
    split at h
    · rename_i hq
      split at h
      · rw [List.mem_singleton] at h
        exact ⟨a, b, List.mem_cons_self _ _, hq.1, hq.2.1, hq.2.2.1,
          hq.2.2.2.1, hq.2.2.2.2, h⟩
      · rcases List.mem_cons.1 h with rfl | h'
        · exact ⟨a, b, List.mem_cons_self _ _, hq.1, hq.2.1, hq.2.2.1,
            hq.2.2.2.1, hq.2.2.2.2, rfl⟩
        · obtain ⟨a', b', hp, hrest⟩ := ih h'
          exact ⟨a', b', List.mem_cons_of_mem _ hp, hrest⟩
    · obtain ⟨a', b', hp, hrest⟩ := ih h
      exact ⟨a', b', List.mem_cons_of_mem _ hp, hrest⟩

theorem reliefLoop_length (interval totalWeeks reliefMax : Nat)
    (required combined : List Nat) (pairs : List (Nat × Nat)) (applied : Nat)
    (hlt : applied < reliefMax) :
    (reliefLoop interval totalWeeks reliefMax required combined pairs applied).length
      ≤ reliefMax - applied := by
  induction pairs generalizing applied with
  | nil => simp [reliefLoop]
  | cons p rest ih =>
    obtain ⟨a, b⟩ := p
    rw [reliefLoop]
    split
    · split
      · simpa using by omega
      · rename_i hstop
        have := ih (applied + 1) (by omega)
        simpa using by omega
    · exact ih applied hlt

/-- The relief loop collects, in scan order, the first `reliefMax − applied`
qualifying gaps. -/

theorem reliefLoop_eq_take_filter {interval totalWeeks reliefMax : Nat}
    {required combined : List Nat} (pairs : List (Nat × Nat)) (applied : Nat)
    (hlt : applied < reliefMax) :
    reliefLoop interval totalWeeks reliefMax required combined pairs applied =
      ((pairs.filter (fun p => decide (p.2 - p.1 = 2 * interval - 1 ∧
          1 ≤ p.1 + interval ∧ p.1 + interval ≤ totalWeeks ∧
          (p.1 + interval) ∉ combined ∧ (p.1 + interval) ∉ required))).take
        (reliefMax - applied)).map (fun p => p.1 + interval) := by
  induction pairs generalizing applied with
  | nil => simp [reliefLoop]
  | cons p rest ih =>
    obtain ⟨a, b⟩ := p
    rw [reliefLoop, List.filter_cons]
    by_cases hq : b - a = 2 * interval - 1 ∧ 1 ≤ a + interval ∧
        a + interval ≤ totalWeeks ∧ (a + interval) ∉ combined ∧
        (a + interval) ∉ required
    · have hqd : (decide ((a, b).2 - (a, b).1 = 2 * interval - 1 ∧
          1 ≤ (a, b).1 + interval ∧ (a, b).1 + interval ≤ totalWeeks ∧
          ((a, b).1 + interval) ∉ combined ∧ ((a, b).1 + interval) ∉ required)) = true :=
        decide_eq_true_eq.mpr hq
      rw [if_pos hq, if_pos hqd]
      by_cases hstop : reliefMax ≤ applied + 1
      · rw [if_pos hstop]
        have h1 : reliefMax - applied = 1 := by omega
        rw [h1]
        simp
      · rw [if_neg hstop, ih (applied + 1) (by omega)]
        have h1 : reliefMax - applied = (reliefMax - (applied + 1)) + 1 := by omega
        rw [h1, List.take_succ_cons, List.map_cons]
    · have hqd : (decide ((a, b).2 - (a, b).1 = 2 * interval - 1 ∧
          1 ≤ (a, b).1 + interval ∧ (a, b).1 + interval ≤ totalWeeks ∧
          ((a, b).1 + interval) ∉ combined ∧ ((a, b).1 + interval) ∉ required)) = false := by
        simpa using hq
      rw [if_neg hq, hqd]
      simpa using ih applied hlt

theorem sortedList_eq_self {α : Type} [LinearOrder α] {l : List α}
    (h : l.Sorted (· ≤ ·)) : sortedList l = l :=
  h.insertionSort_eq

/-- `_select_optimal_weeks_min_gap` equals the spec's per-segment greedy
placement on sane inputs (shared core of claim C3). -/

theorem selectOptimal_eq_spec {n totalWeeks : Nat} {req : List Nat}
    (hn : 2 ≤ n) (hsort : req.Sorted (· ≤ ·))
    (hbnd : ∀ w ∈ req, 1 ≤ w ∧ w ≤ totalWeeks) :
    selectOptimalWeeksMinGap totalWeeks req n = specGreedySegments totalWeeks req n := by
  show selectCore totalWeeks (max 2 n)
    (sortedList (req.filter (fun w => decide (1 ≤ w ∧ w ≤ totalWeeks)))) = _
  have h1 : req.filter (fun w => decide (1 ≤ w ∧ w ≤ totalWeeks)) = req :=
    List.filter_eq_self.2 (fun a ha => decide_eq_true_eq.mpr (hbnd a ha))
  rw [h1, sortedList_eq_self hsort, max_eq_right hn]
  exact selectCore_eq_specGreedySegments hn hsort hbnd

/-- Adjacent gaps of the relief-augmented union: every adjacent pair is
either at least `interval` apart, or exactly `interval − 1` apart with the
left endpoint a relief insertion. -/

theorem relief_union_pairs {interval totalWeeks cap : Nat} {req opt R : List Nat}
    (hI : 3 ≤ interval)
    (hR : R = reliefScan interval totalWeeks cap req (combinedWeeks req opt))
    (hgapC : ∀ x ∈ combinedWeeks req opt, ∀ y ∈ combinedWeeks req opt,
      x < y → x + interval ≤ y) :
    ∀ p ∈ adjPairs (combinedWeeks req (combinedWeeks opt R)),
      interval ≤ p.2 - p.1 ∨ (p.2 - p.1 = interval - 1 ∧ p.1 ∈ R) := by
  set C := combinedWeeks req opt with hCdef
  set U := combinedWeeks req (combinedWeeks opt R) with hUdef
  have hCs : C.Sorted (· ≤ ·) := combinedWeeks_sorted _ _
  have hCn : C.Nodup := combinedWeeks_nodup _ _
  have hUs : U.Sorted (· ≤ ·) := combinedWeeks_sorted _ _
  have hUn : U.Nodup := combinedWeeks_nodup _ _
  have hUmem : ∀ x, x ∈ U ↔ x ∈ C ∨ x ∈ R := by
    intro x
    rw [hUdef, hCdef, mem_combinedWeeks, mem_combinedWeeks, mem_combinedWeeks]
    tauto
  rintro ⟨x, y⟩ hp
  have hxy : x < y := adjPairs_lt_of_sorted_nodup hUs hUn hp
  have hbetween := adjPairs_between_of_sorted hUs hp
  have hxU : x ∈ U := (adjPairs_mem_both hp).1
  have hyU : y ∈ U := (adjPairs_mem_both hp).2
  rcases (hUmem x).1 hxU with hxC | hxR <;> rcases (hUmem y).1 hyU with hyC | hyR
  · left
    have := hgapC x hxC y hyC hxy
    omega
  · -- x ∈ combined, y a relief insertion
    obtain ⟨a', b', hp', hgap', _, _, _, _, hy⟩ := mem_reliefLoop (hR ▸ hyR)
    have hab : a' < b' := adjPairs_lt_of_sorted_nodup hCs hCn hp'
    have ha'C : a' ∈ C := (adjPairs_mem_both hp').1
    have ha'U : a' ∈ U := (hUmem a').2 (Or.inl ha'C)
    have ha'x : a' ≤ x := by
      rcases hbetween a' ha'U with h | h
      · exact h
      · omega
    rcases adjPairs_between_of_sorted hCs hp' x hxC with h | h
    · left; omega
    · omega
  · -- x a relief insertion, y ∈ combined
    obtain ⟨a, b, hp', hgap', _, _, _, _, hx⟩ := mem_reliefLoop (hR ▸ hxR)
    have hab : a < b := adjPairs_lt_of_sorted_nodup hCs hCn hp'
    have hbC : b ∈ C := (adjPairs_mem_both hp').2
    have hbU : b ∈ U := (hUmem b).2 (Or.inl hbC)
    have hyb : y ≤ b := by
      rcases hbetween b hbU with h | h
      · omega
      · exact h
    rcases adjPairs_between_of_sorted hCs hp' y hyC with h | h
    · omega
    · right
      exact ⟨by omega, hxR⟩
  · -- two relief insertions
    obtain ⟨a, b, hp', hgap', _, _, _, _, hx⟩ := mem_reliefLoop (hR ▸ hxR)
    obtain ⟨a', b', hp'', hgap'', _, _, _, _, hy⟩ := mem_reliefLoop (hR ▸ hyR)
    have hab : a < b := adjPairs_lt_of_sorted_nodup hCs hCn hp'
    have hab' : a' < b' := adjPairs_lt_of_sorted_nodup hCs hCn hp''
    have hbU : b ∈ U := (hUmem b).2 (Or.inl (adjPairs_mem_both hp').2)
    have hyb : y ≤ b := by
      rcases hbetween b hbU with h | h
      · omega
      · exact h
    rcases adjPairs_between_of_sorted hCs hp' a' (adjPairs_mem_both hp'').1 with h | h
    · omega
    · omega

/-- At most `R.length` adjacent pairs of the relief-augmented union are
closer than `interval`. -/

theorem relief_union_count {interval totalWeeks cap : Nat} {req opt R : List Nat}
    (hI : 3 ≤ interval)
    (hR : R = reliefScan interval totalWeeks cap req (combinedWeeks req opt))
    (hgapC : ∀ x ∈ combinedWeeks req opt, ∀ y ∈ combinedWeeks req opt,
      x < y → x + interval ≤ y) :
    ((adjPairs (combinedWeeks req (combinedWeeks opt R))).filter
      (fun p => decide (p.2 - p.1 < interval))).length ≤ R.length := by
  set U := combinedWeeks req (combinedWeeks opt R) with hUdef
  have hUn : U.Nodup := combinedWeeks_nodup _ _
  have hnd : (((adjPairs U).filter (fun p => decide (p.2 - p.1 < interval))).map
      Prod.fst).Nodup := by
    have hsub : List.Sublist (((adjPairs U).filter
        (fun p => decide (p.2 - p.1 < interval))).map Prod.fst)
        ((adjPairs U).map Prod.fst) :=
      (List.filter_sublist _).map Prod.fst
    rw [adjPairs_map_fst] at hsub
    exact ((hUn.sublist (List.dropLast_sublist _)).sublist hsub : _)
  have hsubR : ((adjPairs U).filter (fun p => decide (p.2 - p.1 < interval))).map
      Prod.fst ⊆ R := by
    intro z hz
    obtain ⟨q, hq, rfl⟩ := List.mem_map.1 hz
    have hqmem := List.mem_filter.1 hq
    have hsmall : q.2 - q.1 < interval := decide_eq_true_eq.mp hqmem.2
    rcases relief_union_pairs hI hR hgapC q hqmem.1 with h | h
    · omega
    · exact h.2
  have hlen := (List.subperm_of_subset hnd hsubR).length_le
  rw [List.length_map] at hlen
  exact hlen

/-- Any two distinct members of the required/optimal union are at least
`interval` apart (before relief). -/

theorem combined_gap {interval totalWeeks : Nat} {req : List Nat}
    (hn : 2 ≤ interval) (hsort : req.Sorted (· ≤ ·))
    (hchain : req.Chain' (fun a c => a + interval ≤ c))
    (hbnd : ∀ w ∈ req, 1 ≤ w ∧ w ≤ totalWeeks) :
    ∀ x ∈ combinedWeeks req (selectOptimalWeeksMinGap totalWeeks req interval),
      ∀ y ∈ combinedWeeks req (selectOptimalWeeksMinGap totalWeeks req interval),
        x < y → x + interval ≤ y := by
  have hspec := selectOptimal_eq_spec hn hsort hbnd
  have hgap := spec_pairwise_gap hn hsort hchain hbnd
  intro x hx y hy hxy
  refine hgap x ?_ y ?_ hxy
  · rcases mem_combinedWeeks.1 hx with h | h
    · exact List.mem_append.2 (Or.inl h)
    · exact List.mem_append.2 (Or.inr (hspec ▸ h))
  · rcases mem_combinedWeeks.1 hy with h | h
    · exact List.mem_append.2 (Or.inl h)
    · exact List.mem_append.2 (Or.inr (hspec ▸ h))

/-- Shared core of claim C1 (amended): gap structure of the final
required ∪ optimal union produced by `calcOptimalWeeks`. -/

theorem calcOptimal_min_gap (cfg : CalcConfig) {interval totalWeeks : Nat}
    {req : List Nat} (hn : 2 ≤ interval) (hsort : req.Sorted (· ≤ ·))
    (hchain : req.Chain' (fun a c => a + interval ≤ c))
    (hbnd : ∀ w ∈ req, 1 ≤ w ∧ w ≤ totalWeeks) :
    (∀ p ∈ adjPairs (combinedWeeks req (calcOptimalWeeks cfg interval totalWeeks req)),
        interval ≤ p.2 - p.1 ∨ (p.2 - p.1 = interval - 1 ∧
          p.1 ∈ reliefScan interval totalWeeks cfg.reliefMaxPerSemester req
            (combinedWeeks req (selectOptimalWeeksMinGap totalWeeks req interval)))) ∧
      ((adjPairs (combinedWeeks req (calcOptimalWeeks cfg interval totalWeeks req))).filter
        (fun p => decide (p.2 - p.1 < interval))).length ≤ cfg.reliefMaxPerSemester := by
  have hgapC := combined_gap hn hsort hchain hbnd
  simp only [calcOptimalWeeks]
  set opt := selectOptimalWeeksMinGap totalWeeks req interval with hoptdef
  have hnorel : ∀ p ∈ adjPairs (combinedWeeks req opt), interval ≤ p.2 - p.1 := by
    rintro ⟨x, y⟩ hp
    have hxy := adjPairs_lt_of_sorted_nodup (combinedWeeks_sorted req opt)
      (combinedWeeks_nodup req opt) hp
    have := hgapC x (adjPairs_mem_both hp).1 y (adjPairs_mem_both hp).2 hxy
    omega
  have hnorelcount :
      ((adjPairs (combinedWeeks req opt)).filter
        (fun p => decide (p.2 - p.1 < interval))).length ≤ cfg.reliefMaxPerSemester := by
    have : (adjPairs (combinedWeeks req opt)).filter
        (fun p => decide (p.2 - p.1 < interval)) = [] := by
      rw [List.filter_eq_nil_iff]
      intro p hp
      have := hnorel p hp
      simpa using by omega
    rw [this]
    simp
  by_cases hguard : cfg.allowSingleReliefMin1 = true ∧ req ≠ [] ∧ 2 < interval ∧
      0 < cfg.reliefMaxPerSemester
  · rw [if_pos hguard]
    set R := reliefScan interval totalWeeks cfg.reliefMaxPerSemester req
      (combinedWeeks req opt) with hRdef
    by_cases hRnil : R = []
    · rw [if_neg (by simp [hRnil])]
      exact ⟨fun p hp => Or.inl (hnorel p hp), hnorelcount⟩
    · rw [if_pos hRnil]
      rw [show combinedWeeks req
          (combinedWeeks (selectOptimalWeeksMinGap totalWeeks req interval) R) =
            combinedWeeks req (combinedWeeks opt R) from rfl]
      have hI : 3 ≤ interval := by omega
      refine ⟨relief_union_pairs hI hRdef hgapC, ?_⟩
      have h1 := relief_union_count hI hRdef hgapC
      have h2 : R.length ≤ cfg.reliefMaxPerSemester := by
        have := reliefLoop_length interval totalWeeks cfg.reliefMaxPerSemester
          req (combinedWeeks req opt)
          (adjPairs (combinedWeeks req opt)) 0 (by omega)
        simpa using this
      omega
  · rw [if_neg hguard]
    exact ⟨fun p hp => Or.inl (hnorel p hp), hnorelcount⟩

/-! ### Range bounds of the calculator's week outputs -/

theorem selectOptimal_bounds {totalWeeks intervalWeeks : Nat}
    {req : List Nat} :
    ∀ k ∈ selectOptimalWeeksMinGap totalWeeks req intervalWeeks,
      1 ≤ k ∧ k ≤ totalWeeks := by
  intro k hk
  have hn : 2 ≤ max 2 intervalWeeks := le_max_left _ _
  have hn0 : max 2 intervalWeeks ≠ 0 := by omega
  set req' := sortedList (req.filter
    (fun w => decide (1 ≤ w ∧ w ≤ totalWeeks))) with hreq'
  have hsort' : req'.Sorted (· ≤ ·) := sortedList_sorted _
  have hbnd' : ∀ w ∈ req', 1 ≤ w ∧ w ≤ totalWeeks := by
    intro w hw
    rw [hreq', mem_sortedList, List.mem_filter] at hw
    exact decide_eq_true_eq.mp hw.2
  have heq : selectOptimalWeeksMinGap totalWeeks req intervalWeeks =
      specGreedySegments totalWeeks req' (max 2 intervalWeeks) := by
    show selectCore totalWeeks (max 2 intervalWeeks) req' = _
    exact selectCore_eq_specGreedySegments hn hsort' hbnd'
  rw [heq] at hk
  cases hreq'' : req' with
  | nil =>
    rw [hreq''] at hk
    simp only [specGreedySegments] at hk
    exact stepSeq_bounds hn0 hk
  | cons b rest =>
    rw [hreq''] at hk hsort' hbnd'
    simp only [specGreedySegments] at hk
    have := picks_pred hn hsort' hbnd' k hk
    exact ⟨this.2.1, this.2.2⟩

theorem calcOptimal_bounds {cfg : CalcConfig} {interval totalWeeks : Nat}
    {req : List Nat} :
    ∀ k ∈ calcOptimalWeeks cfg interval totalWeeks req,
      1 ≤ k ∧ k ≤ totalWeeks := by
  intro k hk
  simp only [calcOptimalWeeks] at hk
  split at hk
  · split at hk
    · rcases mem_combinedWeeks.1 hk with h | h
      · exact selectOptimal_bounds k h
      · obtain ⟨a, b, _, _, h1, h2, _, _, rfl⟩ := mem_reliefLoop h
        exact ⟨h1, h2⟩
    · exact selectOptimal_bounds k hk
  · exact selectOptimal_bounds k hk

/-- Membership in the worker's derived 1-based required weeks. -/

theorem mem_reqWeeks {w : Worker} {semesterWeeks : List Nat} {k : Nat} :
    k ∈ sortedList ((getXTaskWeeks w semesterWeeks).map (· + 1)) ↔
      ∃ i, k = i + 1 ∧ ∃ h : i < semesterWeeks.length,
        hasDateKey w.xTasks (semesterWeeks[i]) = true := by
  rw [mem_sortedList, List.mem_map]
  constructor
  · rintro ⟨i, hi, rfl⟩
    rw [getXTaskWeeks, List.mem_map] at hi
    obtain ⟨p, hp, rfl⟩ := hi
    have hmem := List.mem_filter.1 hp
    have := List.mk_mem_enum_iff_getElem?.1 (show (p.1, p.2) ∈ _ from hmem.1)
    have hlen : p.1 < semesterWeeks.length := by
      by_contra hcon
      rw [List.getElem?_eq_none (by omega)] at this
      exact Option.noConfusion this
    refine ⟨p.1, rfl, hlen, ?_⟩
    rw [List.getElem?_eq_getElem hlen] at this
    have hval : semesterWeeks[p.1] = p.2 := Option.some.inj this
    rw [hval]
    exact hmem.2
  · rintro ⟨i, rfl, hlen, hkey⟩
    refine ⟨i, ?_, rfl⟩
    rw [getXTaskWeeks, List.mem_map]
    refine ⟨(i, semesterWeeks[i]), ?_, rfl⟩
    rw [List.mem_filter]
    exact ⟨List.mk_mem_enum_iff_getElem?.2 (List.getElem?_eq_getElem hlen), hkey⟩

/-- Shared core of claim C5: a date never appears in both `required_dates`
and `optimal_dates`.  The optimal weeks exclude every required week number,
and two week numbers mapping to the same date have the same X-task key, so a
date collision would force the optimal week to be required as well. -/

theorem calc_required_optimal_disjoint (cfg : CalcConfig) (w : Worker)
    (semesterWeeks : List Nat) :
    ∀ d ∈ (calcWorkerClosingSchedule cfg w semesterWeeks).requiredDates,
      d ∉ (calcWorkerClosingSchedule cfg w semesterWeeks).optimalDates := by
  intro d hd hdopt
  simp only [calcWorkerClosingSchedule] at hd hdopt
  split at hd
  · simp at hd
  · rename_i hne
    simp only at hd hdopt
    rw [List.mem_map] at hd
    obtain ⟨r, hr, hrd⟩ := hd
    split at hdopt
    · rename_i heq
      exact absurd heq hne
    · rw [List.mem_map] at hdopt
      obtain ⟨k, hk, hkd⟩ := hdopt
      have hkf := List.mem_filter.1 hk
      have hknotreq : k ∉ sortedList ((getXTaskWeeks w semesterWeeks).map (· + 1)) :=
        by simpa using hkf.2
      obtain ⟨i, rfl, hlen, hkey⟩ := mem_reqWeeks.1 hr
      have hkb := calcOptimal_bounds k hkf.1
      have hklen : k - 1 < semesterWeeks.length := by omega
      have hgr : semesterWeeks.getD (i + 1 - 1) 0 = semesterWeeks[i] := by
        have h1 : i + 1 - 1 = i := by omega
        rw [h1]
        exact List.getD_eq_getElem semesterWeeks 0 hlen
      have hgk : semesterWeeks.getD (k - 1) 0 = semesterWeeks[k - 1] :=
        List.getD_eq_getElem semesterWeeks 0 hklen
      have hsame : semesterWeeks[k - 1] = semesterWeeks[i] := by
        rw [← hgk, ← hgr, hkd, hrd]
      apply hknotreq
      refine mem_reqWeeks.2 ⟨k - 1, by omega, hklen, ?_⟩
      rw [hsame]
      exact hkey

/-! ### Where weekday assignments can come from (claim C2) -/

/-- An entry of the grid after `assignments[d].append(q)` was already there
or is the appended pair. -/

theorem mem_assignsAt_assignAt {m : List (Nat × List (String × String))}
    {d d' : Nat} {q pr : String × String}
    (h : pr ∈ assignsAt (assignAt m d q) d') :
    pr ∈ assignsAt m d' ∨ pr = q := by
  induction m with
  | nil =>
    rw [assignAt, assignsAt] at h
    split at h
    · rcases List.mem_singleton.1 h with rfl
      exact Or.inr rfl
    · simp [assignsAt] at h
  | cons x rest ih =>
    rw [assignAt] at h
    split at h
    · rw [assignsAt] at h
      rw [assignsAt]
      split at h
      · rename_i h1 h2
        rw [if_pos h2] at *
        rcases List.mem_append.1 h with h' | h'
        · exact Or.inl h'
        · exact Or.inr (List.mem_singleton.1 h')
      · rename_i h1 h2
        rw [if_neg h2]
        exact Or.inl h
    · rw [assignsAt] at h
      rw [assignsAt]
      split at h
      · rename_i h1 h2
        rw [if_pos h2]
        exact Or.inl h
      · rename_i h1 h2
        rw [if_neg h2]
        exact ih h

/-- Every grid entry added by the weekday inner loop names a worker from the
candidate list. -/

theorem weekdayInnerLoop_assign_mem (env : TaskEnv) (sc widx : String → ℚ)
    (taskDate : Nat) (sortedIds : List String) :
    ∀ (ids assignedToday : List String) (acc : WeekdayAcc) (pr : String × String)
      (d' : Nat),
      pr ∈ assignsAt (weekdayInnerLoop env sc widx taskDate sortedIds ids
        assignedToday acc).assignments d' →
      pr ∈ assignsAt acc.assignments d' ∨ pr.2 ∈ ids := by
  intro ids
  induction ids with
  | nil =>
    intro assignedToday acc pr d' h
    exact Or.inl h
  | cons wid rest ih =>
    intro assignedToday acc pr d' h
    rw [weekdayInnerLoop] at h
    split at h
    · exact Or.inl h
    · split at h
      · rcases ih _ _ _ _ h with h' | h'
        · exact Or.inl h'
        · exact Or.inr (List.mem_cons_of_mem _ h')
      · split at h
        · rcases ih _ _ _ _ h with h' | h'
          · exact Or.inl h'
          · exact Or.inr (List.mem_cons_of_mem _ h')
        · split at h
          · rcases ih _ _ _ _ h with h' | h'
            · exact Or.inl h'
            · exact Or.inr (List.mem_cons_of_mem _ h')
          · split at h
            · rcases ih _ _ _ _ h with h' | h'
              · exact Or.inl h'
              · exact Or.inr (List.mem_cons_of_mem _ h')
            · rcases ih _ _ _ _ h with h' | h'
              · rcases mem_assignsAt_assignAt h' with h'' | h''
                · exact Or.inl h''
                · exact Or.inr (by rw [h'']; exact List.mem_cons_self _ _)
              · exact Or.inr (List.mem_cons_of_mem _ h')

/-- Same property for one weekly-cap tier, with candidates drawn from the
available pool. -/

theorem weekdayCapTier_assign_mem (env : TaskEnv) (policy : WorkerPolicy)
    (sc widx : String → ℚ) (taskDate weekStart : Nat)
    (closersThisWeek availIds : List String) (cap : Nat) (acc : WeekdayAcc)
    (pr : String × String) (d' : Nat)
    (h : pr ∈ assignsAt (weekdayCapTier env policy sc widx taskDate weekStart
      closersThisWeek availIds cap acc).assignments d') :
    pr ∈ assignsAt acc.assignments d' ∨ availIds.contains pr.2 = true := by
  rw [weekdayCapTier] at h
  split at h
  · exact Or.inl h
  · rcases weekdayInnerLoop_assign_mem env sc widx taskDate _ _ _ _ _ _ h with h' | h'
    · exact Or.inl h'
    · right
      rw [List.mem_map] at h'
      obtain ⟨w, hw, heq⟩ := h'
      rw [← heq]
      rcases List.mem_append.1 hw with hw' | hw' <;>
      · have h1 := List.mem_filter.1 ((List.perm_insertionSort _ _).mem_iff.1 hw')
        have h2 := List.mem_filter.1 h1.1
        have h3 := List.mem_filter.1 h2.1
        exact h3.2

theorem weekdayCapLoop_assign_mem (env : TaskEnv) (policy : WorkerPolicy)
    (sc widx : String → ℚ) (taskDate weekStart : Nat)
    (closersThisWeek availIds : List String) :
    ∀ (fuel cap : Nat) (acc : WeekdayAcc) (pr : String × String) (d' : Nat),
      pr ∈ assignsAt (weekdayCapLoop env policy sc widx taskDate weekStart
        closersThisWeek availIds fuel cap acc).assignments d' →
      pr ∈ assignsAt acc.assignments d' ∨ availIds.contains pr.2 = true := by
  intro fuel
  induction fuel with
  | zero =>
    intro cap acc pr d' h
    exact Or.inl h
  | succ f ih =>
    intro cap acc pr d' h
    rw [weekdayCapLoop] at h
    split at h
    · exact weekdayCapTier_assign_mem env policy sc widx taskDate weekStart
        closersThisWeek availIds cap acc pr d' h
    · split at h
      · rcases ih (cap + 1) _ pr d' h with h' | h'
        · exact weekdayCapTier_assign_mem env policy sc widx taskDate weekStart
            closersThisWeek availIds cap acc pr d' h'
        · exact Or.inr h'
      · exact weekdayCapTier_assign_mem env policy sc widx taskDate weekStart
          closersThisWeek availIds cap acc pr d' h

/-- Shared core of claim C2 (amended), weekday side: a weekday assignment
generated for a worker with an X task that day is only possible when every
base-available worker has an X task that day (the X-free preference is a
soft filter with fallback). -/

theorem weekday_soft_x (env : TaskEnv) (policy : WorkerPolicy)
    (sc widx : String → ℚ) (st : EngineState) (taskDate : Nat)
    (tasksNeeded : List String) (pr : String × String) (w : Worker)
    (hpr : pr ∈ assignsAt (assignWeekdayTasks env policy sc widx st taskDate
      tasksNeeded).assignments taskDate)
    (hnew : pr ∉ assignsAt st.assignments taskDate)
    (hw : w ∈ st.workers) (hid : w.id = pr.2)
    (hids : (st.workers.map (·.id)).Nodup)
    (hx : hasXTaskOnDate w taskDate = true) :
    ∀ w' ∈ st.workers.filter (fun x =>
      !(((assignsAt st.assignments taskDate).map (·.2)).contains x.id) &&
        !(x.closingHistory.contains taskDate)),
      hasXTaskOnDate w' taskDate = true := by
  simp only [assignWeekdayTasks] at hpr
  rcases weekdayCapLoop_assign_mem _ _ _ _ _ _ _ _ _ _ _ _ _ hpr with h | h
  · exact absurd h hnew
  · have hmem : pr.2 ∈ (if (st.workers.filter (fun x =>
        !(((assignsAt st.assignments taskDate).map (·.2)).contains x.id) &&
          !(x.closingHistory.contains taskDate))).filter (fun x =>
            !(hasXTaskOnDate x taskDate)) |>.isEmpty then
          st.workers.filter (fun x =>
            !(((assignsAt st.assignments taskDate).map (·.2)).contains x.id) &&
              !(x.closingHistory.contains taskDate))
        else (st.workers.filter (fun x =>
          !(((assignsAt st.assignments taskDate).map (·.2)).contains x.id) &&
            !(x.closingHistory.contains taskDate))).filter (fun x =>
              !(hasXTaskOnDate x taskDate))).map (·.id) := List.elem_iff.1 h
    by_cases hempty : ((st.workers.filter (fun x =>
        !(((assignsAt st.assignments taskDate).map (·.2)).contains x.id) &&
          !(x.closingHistory.contains taskDate))).filter (fun x =>
            !(hasXTaskOnDate x taskDate))).isEmpty
    · intro w' hw'
      rw [List.isEmpty_iff] at hempty
      by_contra hcon
      have : w' ∈ (st.workers.filter (fun x =>
          !(((assignsAt st.assignments taskDate).map (·.2)).contains x.id) &&
            !(x.closingHistory.contains taskDate))).filter (fun x =>
              !(hasXTaskOnDate x taskDate)) :=
        List.mem_filter.2 ⟨hw', by simp [hcon]⟩
      rw [hempty] at this
      exact absurd this (List.not_mem_nil _)
    · rw [if_neg hempty] at hmem
      obtain ⟨wp, hwp, hwpid⟩ := List.mem_map.1 hmem
      have hwp1 := List.mem_filter.1 hwp
      have hwp2 := List.mem_filter.1 hwp1.1
      have heqw : w = wp :=
        List.inj_on_of_nodup_map hids hw hwp2.1 (by rw [hid, hwpid])
      rw [heqw] at hx
      have : ¬(hasXTaskOnDate wp taskDate = true) := by
        have := hwp1.2
        simp at this
        simp [this]
      exact absurd hx this

/-- The error block's candidate test, unfolded to propositions. -/

theorem lastWeekOnlyPool_exists (policy : WorkerPolicy) (friday : Nat)
    (ids : List String) (ws : List Worker) :
    (lastWeekOnlyPool policy friday ids ws).isEmpty = false ↔
      ∃ x ∈ ws, policy.canParticipateInClosing x = true ∧
        hasNonRitukXOnFriday x friday = false ∧ x.id ∉ ids ∧
        (friday - 7) ∈ x.closingHistory := by
  rw [lastWeekOnlyPool]
  rw [show ∀ b : Bool, (b = false) = (¬(b = true)) from fun b => by simp]
  rw [List.isEmpty_iff, List.filter_eq_nil_iff]
  simp only [Bool.and_eq_true, Bool.not_eq_true]
  constructor
  · intro h
    push_neg at h
    obtain ⟨x, hx, hpred⟩ := h
    have h1 : policy.canParticipateInClosing x = true ∧
        ((!hasNonRitukXOnFriday x friday) = true) ∧
        ((!List.contains ids x.id) = true) ∧
        x.closingHistory.contains (friday - 7) = true := by
      rcases Bool.eq_false_or_eq_true (policy.canParticipateInClosing x) with h' | h' <;>
        rcases Bool.eq_false_or_eq_true (hasNonRitukXOnFriday x friday) with h'' | h'' <;>
        rcases Bool.eq_false_or_eq_true (List.contains ids x.id) with h3 | h3 <;>
        rcases Bool.eq_false_or_eq_true
          (x.closingHistory.contains (friday - 7)) with h4 | h4 <;>
        simp_all
    refine ⟨x, hx, h1.1, by simpa using h1.2.1, ?_, List.elem_iff.1 h1.2.2.2⟩
    intro hc
    have h6 := h1.2.2.1
    rw [Bool.not_eq_true'] at h6
    have h5 : ids.contains x.id = true := List.elem_iff.2 hc
    rw [h6] at h5
    exact Bool.noConfusion h5
  · rintro ⟨x, hx, h1, h2, h3, h4⟩ hall
    refine hall x hx ⟨⟨⟨h1, by simp [h2]⟩, ?_⟩, List.elem_iff.2 h4⟩
    rw [Bool.not_eq_true', Bool.eq_false_iff]
    intro hc
    exact h3 (List.elem_iff.1 hc)

/-- Shared core of claim C7 (amended): each task still unassigned after the
weekend tiers yields exactly one error, whose severity is `error` precisely
when some remaining candidate (participation-capable, no blocking X task,
unassigned) closed the preceding Friday, else `warning`. -/

theorem weekend_error_severity (env : TaskEnv) (policy : WorkerPolicy)
    (sc : String → ℚ) (st : EngineState) (thursday : Nat)
    (weekendTasks : List (Nat × List String)) (semesterWeeks : List Nat) :
    ((assignWeekendTasks env policy sc st thursday weekendTasks
        semesterWeeks).errors.drop st.errors.length).map (·.taskType) =
      (weekendTiers env policy sc st thursday weekendTasks).unassigned ∧
    ∀ e ∈ (assignWeekendTasks env policy sc st thursday weekendTasks
        semesterWeeks).errors.drop st.errors.length,
      (e.severity = "error" ↔ ∃ x ∈ (missedOptimalPass policy (thursday + 1)
          semesterWeeks (weekendTiers env policy sc st thursday weekendTasks).assignedIds
          (weekendTiers env policy sc st thursday weekendTasks).workers
          (weekendTiers env policy sc st thursday weekendTasks).logs).1,
        policy.canParticipateInClosing x = true ∧
          hasNonRitukXOnFriday x (thursday + 1) = false ∧
          x.id ∉ (weekendTiers env policy sc st thursday weekendTasks).assignedIds ∧
          (thursday + 1 - 7) ∈ x.closingHistory) ∧
      (e.severity = "error" ∨ e.severity = "warning") := by
  simp only [assignWeekendTasks]
  rw [List.drop_left]
  set acc := weekendTiers env policy sc st thursday weekendTasks with hacc
  set ws' := (missedOptimalPass policy (thursday + 1) semesterWeeks
    acc.assignedIds acc.workers acc.logs).1 with hws'
  by_cases hun : acc.unassigned ≠ []
  · rw [if_pos hun]
    cases hpool : (lastWeekOnlyPool policy (thursday + 1) acc.assignedIds ws').isEmpty
    · -- pool nonempty: severity 'error'
      simp only [hpool, Bool.not_false, weekendErrors]
      rw [if_pos trivial]
      constructor
      · rw [List.map_map]
        exact List.map_id _
      · intro e he
        obtain ⟨t, _, heq⟩ := List.mem_map.1 he
        have hs : e.severity = "error" := by rw [← heq]
        rw [hs]
        exact ⟨⟨fun _ => (lastWeekOnlyPool_exists policy (thursday + 1)
          acc.assignedIds ws').1 hpool, fun _ => rfl⟩, Or.inl rfl⟩
    · -- pool empty: severity 'warning'
      simp only [hpool, Bool.not_true, weekendErrors]
      rw [if_neg Bool.false_ne_true]
      constructor
      · rw [List.map_map]
        exact List.map_id _
      · intro e he
        obtain ⟨t, _, heq⟩ := List.mem_map.1 he
        have hs : e.severity = "warning" := by rw [← heq]
        rw [hs]
        refine ⟨⟨fun h => absurd h (by decide), fun hex => ?_⟩, Or.inr rfl⟩
        have hfalse := (lastWeekOnlyPool_exists policy (thursday + 1)
          acc.assignedIds ws').2 hex
        rw [hpool] at hfalse
        exact absurd hfalse (by decide)
  · rw [if_neg hun]
    push_neg at hun
    rw [hun]
    exact ⟨rfl, fun e he => absurd he (List.not_mem_nil e)⟩

/-- Shared core of claim C10: the calculator never reads
`closing_history`; its date outputs are a function of the interval, the
X-task map and the semester week list alone. -/

theorem calc_ignores_history (cfg : CalcConfig) (w₁ w₂ : Worker)
    (s : List Nat) (h1 : w₁.closingInterval = w₂.closingInterval)
    (h2 : w₁.xTasks = w₂.xTasks) :
    (calcWorkerClosingSchedule cfg w₁ s).requiredDates =
      (calcWorkerClosingSchedule cfg w₂ s).requiredDates ∧
    (calcWorkerClosingSchedule cfg w₁ s).optimalDates =
      (calcWorkerClosingSchedule cfg w₂ s).optimalDates := by
  have hgx : getXTaskWeeks w₁ s = getXTaskWeeks w₂ s := by
    rw [getXTaskWeeks, getXTaskWeeks, h2]
  by_cases hs : s = []
  · simp [calcWorkerClosingSchedule, hs]
  · simp only [calcWorkerClosingSchedule, if_neg hs]
    rw [hgx, h1]
    exact ⟨rfl, rfl⟩

/-! ### Claim theorems -/

/-- C1 (counterexample): the min-gap invariant over
`closing_history ∪ required_dates ∪ optimal_dates` fails on the code: for a
worker with interval 3 whose history holds the second Friday of a 6-week
semester and who has no X tasks, the calculator still picks weeks 1 and 4
(dates 4 and 25), so the sorted union `[4, 11, 25]` has week gaps 1 and 2 —
a gap that is neither ≥ 3 nor equal to 3 − 1, and two sub-interval gaps
against a relief budget of 1. -/

theorem claim_C1_counterexample :
    ¬ (let w : Worker := ⟨"W", "W", 3, [11], [], [], [], [], [], [], [], 0, 0, 0⟩
       let r := calcWorkerClosingSchedule {} w [4, 11, 18, 25, 32, 39]
       let u := sortedList ((w.closingHistory ++ r.requiredDates ++
         r.optimalDates).dedup)
       (∀ p ∈ adjPairs u, 3 ≤ (p.2 - p.1) / 7 ∨ (p.2 - p.1) / 7 = 3 - 1) ∧
         ((adjPairs u).filter
           (fun p => decide ((p.2 - p.1) / 7 < 3))).length ≤ 1) := by
  decide

/-- C1 (amended): for every calculator run in week space, if the derived
required weeks are themselves at least `interval` apart, then every adjacent
pair of the final required ∪ optimal union is at least `interval` apart,
except pairs of exactly `interval − 1` whose left endpoint is a relief
insertion, and at most `relief_max_per_semester` pairs are closer than
`interval`.  (`closing_history` is not part of the union: the calculator
never reads it — see C10.) -/

theorem claim_C1 (cfg : CalcConfig) (interval totalWeeks : Nat)
    (req : List Nat) (hn : 2 ≤ interval) (hsort : req.Sorted (· ≤ ·))
    (hchain : req.Chain' (fun a c => a + interval ≤ c))
    (hbnd : ∀ w ∈ req, 1 ≤ w ∧ w ≤ totalWeeks) :
    (∀ p ∈ adjPairs (combinedWeeks req
        (calcOptimalWeeks cfg interval totalWeeks req)),
      interval ≤ p.2 - p.1 ∨ (p.2 - p.1 = interval - 1 ∧
        p.1 ∈ reliefScan interval totalWeeks cfg.reliefMaxPerSemester req
          (combinedWeeks req (selectOptimalWeeksMinGap totalWeeks req interval)))) ∧
    ((adjPairs (combinedWeeks req
        (calcOptimalWeeks cfg interval totalWeeks req))).filter
      (fun p => decide (p.2 - p.1 < interval))).length ≤
        cfg.reliefMaxPerSemester :=
  calcOptimal_min_gap cfg hn hsort hchain hbnd

/-- C1 witness: the amended invariant at interval 4, a 13-week semester and
required weeks `[6, 13]`. -/

theorem claim_C1_witness :
    (∀ p ∈ adjPairs (combinedWeeks [6, 13]
        (calcOptimalWeeks {} 4 13 [6, 13])),
      4 ≤ p.2 - p.1 ∨ (p.2 - p.1 = 4 - 1 ∧
        p.1 ∈ reliefScan 4 13 1 [6, 13]
          (combinedWeeks [6, 13] (selectOptimalWeeksMinGap 13 [6, 13] 4)))) ∧
    ((adjPairs (combinedWeeks [6, 13]
        (calcOptimalWeeks {} 4 13 [6, 13]))).filter
      (fun p => decide (p.2 - p.1 < 4))).length ≤ 1 :=
  claim_C1 {} 4 13 [6, 13] (by decide) (by decide)
    (by rw [List.chain'_cons]; exact ⟨by decide, List.chain'_singleton _⟩)
    (by decide)

/-- C2 (counterexample): X-task entries are not a hard block on weekday
assignment: running the engine over a one-worker roster whose only worker
holds the non-empty, non-"Rituk" X task "Guard" on the single in-range date
still assigns that day's Y task to that worker, because the weekday X-free
preference falls back to all available workers when it would empty the
pool. -/

theorem claim_C2_counterexample :
    ¬ (let w : Worker := ⟨"W", "W", 2, [], [], [], [(7, "Guard")], [], [], [],
         [], 0, 0, 0⟩
       let st := assignTasksForRange ⟨["t"], fun _ => false, fun _ => true,
         fun _ => none⟩ defaultPolicy {} [w] 7 7 [(7, ["t"])]
       ∀ pr ∈ assignsAt st.assignments 7, pr.2 = w.id →
         (hasXTaskOnDate w 7 && !(hasSpecificXTask w 7 "Rituk")) = false) := by
  decide

/-- C2 (amended): the weekday X-task filter is a soft preference, not a hard
block: whenever a run of `_assign_weekday_tasks` produces a new assignment
for a worker who has an X task on that date, every base-available worker
(not yet assigned today and not closing today) also has an X task on that
date — the X-free pool was empty and the code fell back to it. -/

theorem claim_C2 (env : TaskEnv) (policy : WorkerPolicy)
    (sc widx : String → ℚ) (st : EngineState) (taskDate : Nat)
    (tasksNeeded : List String) (pr : String × String) (w : Worker)
    (hpr : pr ∈ assignsAt (assignWeekdayTasks env policy sc widx st taskDate
      tasksNeeded).assignments taskDate)
    (hnew : pr ∉ assignsAt st.assignments taskDate)
    (hw : w ∈ st.workers) (hid : w.id = pr.2)
    (hids : (st.workers.map (·.id)).Nodup)
    (hx : hasXTaskOnDate w taskDate = true) :
    ∀ w' ∈ st.workers.filter (fun x =>
      !(((assignsAt st.assignments taskDate).map (·.2)).contains x.id) &&
        !(x.closingHistory.contains taskDate)),
      hasXTaskOnDate w' taskDate = true :=
  weekday_soft_x env policy sc widx st taskDate tasksNeeded pr w hpr hnew hw
    hid hids hx

/-- C2 witness: the amended statement at the counterexample scenario — the
fallback fired, and the base-available worker produced by the soft-filter
conclusion indeed has an X task on the date. -/
theorem claim_C2_witness :
    hasXTaskOnDate
      ⟨"W", "W", 2, [], [], [], [(7, "Guard")], [], [], [], [], 0, 0, 0⟩ 7 =
      true :=
  claim_C2 ⟨["t"], fun _ => false, fun _ => true, fun _ => none⟩
    defaultPolicy (fun _ => 0) (fun _ => 0)
    ⟨[⟨"W", "W", 2, [], [], [], [(7, "Guard")], [], [], [], [], 0, 0, 0⟩],
      [(7, [])], [], []⟩ 7 ["t"] ("t", "W")
    ⟨"W", "W", 2, [], [], [], [(7, "Guard")], [], [], [], [], 0, 0, 0⟩
    (by decide) (by decide) (by decide) (by decide) (by decide) (by decide)
    ⟨"W", "W", 2, [], [], [], [(7, "Guard")], [], [], [], [], 0, 0, 0⟩
    (by decide)

/-- C3: for every semester length ≥ 1, every `≤`-sorted required-week list
within `[1, totalWeeks]` and every interval `n ≥ 2`,
`_select_optimal_weeks_min_gap` equals the spec's per-segment greedy
placement (start, middle and end segments, and the no-required case). -/

theorem claim_C3 {n totalWeeks : Nat} {req : List Nat} (h1 : 1 ≤ totalWeeks)
    (hn : 2 ≤ n) (hsort : req.Sorted (· ≤ ·))
    (hbnd : ∀ w ∈ req, 1 ≤ w ∧ w ≤ totalWeeks) :
    selectOptimalWeeksMinGap totalWeeks req n =
      specGreedySegments totalWeeks req n :=
  selectOptimal_eq_spec hn hsort hbnd

/-- C3 witness: a 26-week semester with required weeks `[6, 13]` and
interval 3. -/

theorem claim_C3_witness :
    selectOptimalWeeksMinGap 26 [6, 13] 3 = specGreedySegments 26 [6, 13] 3 :=
  claim_C3 (by decide) (by decide) (by decide) (by decide)

/-- C4: the relief pass (i) is skipped entirely — the optimal weeks are the
plain greedy selection — unless relief is enabled, a required week exists,
the interval exceeds 2 and the cap is positive; (ii) only inserts weeks of
the form `a + interval` for an adjacent combined pair `(a, b)` with gap
exactly `2·interval − 1`; (iii) inserts at most `relief_max_per_semester`
weeks; (iv) equals the first `relief_max_per_semester` qualifying gaps of
the ascending scan, in order; and (v) never fires when the interval is 2. -/

theorem claim_C4 (cfg : CalcConfig) (interval totalWeeks : Nat)
    (req C : List Nat)
    (hC : C = combinedWeeks req (selectOptimalWeeksMinGap totalWeeks req interval)) :
    (¬(cfg.allowSingleReliefMin1 = true ∧ req ≠ [] ∧ 2 < interval ∧
        0 < cfg.reliefMaxPerSemester) →
      calcOptimalWeeks cfg interval totalWeeks req =
        selectOptimalWeeksMinGap totalWeeks req interval) ∧
    (∀ r ∈ reliefScan interval totalWeeks cfg.reliefMaxPerSemester req C,
      ∃ a b, (a, b) ∈ adjPairs C ∧ b - a = 2 * interval - 1 ∧
        r = a + interval) ∧
    (0 < cfg.reliefMaxPerSemester →
      (reliefScan interval totalWeeks cfg.reliefMaxPerSemester req C).length ≤
        cfg.reliefMaxPerSemester) ∧
    (0 < cfg.reliefMaxPerSemester →
      reliefScan interval totalWeeks cfg.reliefMaxPerSemester req C =
        (((adjPairs C).filter (fun p => decide (p.2 - p.1 = 2 * interval - 1 ∧
            1 ≤ p.1 + interval ∧ p.1 + interval ≤ totalWeeks ∧
            (p.1 + interval) ∉ C ∧ (p.1 + interval) ∉ req))).take
          cfg.reliefMaxPerSemester).map (fun p => p.1 + interval)) ∧
    (interval = 2 →
      calcOptimalWeeks cfg interval totalWeeks req =
        selectOptimalWeeksMinGap totalWeeks req interval) := by
  refine ⟨?_, ?_, ?_, ?_, ?_⟩
  · intro h
    simp only [calcOptimalWeeks]
    rw [if_neg h]
  · intro r hr
    obtain ⟨a, b, hp, hgap, _, _, _, _, hr2⟩ := mem_reliefLoop hr
    exact ⟨a, b, hp, hgap, hr2⟩
  · intro hcap
    have h := reliefLoop_length interval totalWeeks cfg.reliefMaxPerSemester
      req C (adjPairs C) 0 hcap
    simpa [reliefScan] using h
  · intro hcap
    have h := @reliefLoop_eq_take_filter interval totalWeeks
      cfg.reliefMaxPerSemester req C (adjPairs C) 0 hcap
    simp only [reliefScan, Nat.sub_zero] at h ⊢
    exact h
  · intro h2
    simp only [calcOptimalWeeks]
    rw [if_neg (fun h => absurd h.2.2.1 (by omega))]

/-- C4 witness: interval 4 over 13 weeks with required `[6, 13]` — the
combined pre-relief picks are `[1, 6, 13]`, the only qualifying gap is
`(6, 13)` and exactly one relief week, `10`, is inserted. -/

theorem claim_C4_witness :
    (¬((({} : CalcConfig).allowSingleReliefMin1 = true ∧ ([6, 13] : List Nat) ≠ [] ∧
        2 < 4 ∧ 0 < ({} : CalcConfig).reliefMaxPerSemester)) →
      calcOptimalWeeks {} 4 13 [6, 13] = selectOptimalWeeksMinGap 13 [6, 13] 4) ∧
    (∀ r ∈ reliefScan 4 13 ({} : CalcConfig).reliefMaxPerSemester [6, 13] [1, 6, 13],
      ∃ a b, (a, b) ∈ adjPairs [1, 6, 13] ∧ b - a = 2 * 4 - 1 ∧
        r = a + 4) ∧
    (0 < ({} : CalcConfig).reliefMaxPerSemester →
      (reliefScan 4 13 ({} : CalcConfig).reliefMaxPerSemester [6, 13] [1, 6, 13]).length ≤
        ({} : CalcConfig).reliefMaxPerSemester) ∧
    (0 < ({} : CalcConfig).reliefMaxPerSemester →
      reliefScan 4 13 ({} : CalcConfig).reliefMaxPerSemester [6, 13] [1, 6, 13] =
        (((adjPairs [1, 6, 13]).filter (fun p => decide (p.2 - p.1 = 2 * 4 - 1 ∧
            1 ≤ p.1 + 4 ∧ p.1 + 4 ≤ 13 ∧
            (p.1 + 4) ∉ ([1, 6, 13] : List Nat) ∧
            (p.1 + 4) ∉ ([6, 13] : List Nat)))).take
          ({} : CalcConfig).reliefMaxPerSemester).map (fun p => p.1 + 4)) ∧
    ((4 : Nat) = 2 →
      calcOptimalWeeks {} 4 13 [6, 13] = selectOptimalWeeksMinGap 13 [6, 13] 4) :=
  claim_C4 {} 4 13 [6, 13] [1, 6, 13] (by decide)

/-- C5: for every worker and semester week list, no date appears in both
`required_dates` and `optimal_dates` of the calculator's output. -/

theorem claim_C5 (cfg : CalcConfig) (w : Worker) (semesterWeeks : List Nat) :
    ∀ d ∈ (calcWorkerClosingSchedule cfg w semesterWeeks).requiredDates,
      d ∉ (calcWorkerClosingSchedule cfg w semesterWeeks).optimalDates :=
  calc_required_optimal_disjoint cfg w semesterWeeks

/-- C5 witness: a worker with an X task on the second semester Friday — date
11 is required and, accordingly, not optimal. -/

theorem claim_C5_witness :
    (11 : Nat) ∉ (calcWorkerClosingSchedule {}
      ⟨"W", "W", 3, [], [], [], [(11, "x")], [], [], [], [], 0, 0, 0⟩
      [4, 11, 18, 25]).optimalDates :=
  claim_C5 {} ⟨"W", "W", 3, [], [], [], [(11, "x")], [], [], [], [], 0, 0, 0⟩
    [4, 11, 18, 25] 11 (by decide)

/-- C6: the calculator and the engine are deterministic — both are pure
functions of their inputs in this embedding (no randomness or wall-clock
reads exist in the translated code), so identical inputs, including
identical worker state, give identical outputs. -/

theorem claim_C6 (cfg₁ cfg₂ : CalcConfig) (w₁ w₂ : Worker)
    (s₁ s₂ : List Nat) (env₁ env₂ : TaskEnv) (p₁ p₂ : WorkerPolicy)
    (sc₁ sc₂ : ScoringCfg) (ws₁ ws₂ : List Worker) (a₁ a₂ b₁ b₂ : Nat)
    (t₁ t₂ : List (Nat × List String))
    (h1 : cfg₁ = cfg₂) (h2 : w₁ = w₂) (h3 : s₁ = s₂) (h4 : env₁ = env₂)
    (h5 : p₁ = p₂) (h6 : sc₁ = sc₂) (h7 : ws₁ = ws₂) (h8 : a₁ = a₂)
    (h9 : b₁ = b₂) (h10 : t₁ = t₂) :
    calcWorkerClosingSchedule cfg₁ w₁ s₁ = calcWorkerClosingSchedule cfg₂ w₂ s₂ ∧
    assignTasksForRange env₁ p₁ sc₁ ws₁ a₁ b₁ t₁ =
      assignTasksForRange env₂ p₂ sc₂ ws₂ a₂ b₂ t₂ := by
  subst h1 h2 h3 h4 h5 h6 h7 h8 h9 h10
  exact ⟨rfl, rfl⟩

/-- C6 witness: two runs of the calculator and engine on the same one-worker
input agree. -/

theorem claim_C6_witness :
    calcWorkerClosingSchedule {}
        ⟨"W", "W", 2, [], [], [], [], [], [], [], [], 0, 0, 0⟩ [4, 11] =
      calcWorkerClosingSchedule {}
        ⟨"W", "W", 2, [], [], [], [], [], [], [], [], 0, 0, 0⟩ [4, 11] ∧
    assignTasksForRange ⟨["t"], fun _ => false, fun _ => true, fun _ => none⟩
        defaultPolicy {}
        [⟨"W", "W", 2, [], [], [], [], [], [], [], [], 0, 0, 0⟩] 7 7
        [(7, ["t"])] =
      assignTasksForRange ⟨["t"], fun _ => false, fun _ => true, fun _ => none⟩
        defaultPolicy {}
        [⟨"W", "W", 2, [], [], [], [], [], [], [], [], 0, 0, 0⟩] 7 7
        [(7, ["t"])] :=
  claim_C6 {} {} _ _ [4, 11] [4, 11] _ _ defaultPolicy defaultPolicy {} {}
    _ _ 7 7 7 7 [(7, ["t"])] [(7, ["t"])]
    rfl rfl rfl rfl rfl rfl rfl rfl rfl rfl

/-- C7 (counterexample): the unfilled-task severity is not "error only when
exclusively last-week closers remain": with qualified worker A who closed
the preceding Friday and unqualified worker B who did not, the task stays
unfilled with severity "error" (the code's pool test ignores
qualifications), yet B is a remaining candidate who is
participation-capable, X-free, unassigned — and not a last-week closer. -/

theorem claim_C7_counterexample :
    ¬ (let A : Worker := ⟨"A", "A", 2, [4], [], [], [], [], ["t"], [], [],
         0, 0, 0⟩
       let B : Worker := ⟨"B", "B", 2, [], [], [], [], [], [], [], [],
         0, 0, 0⟩
       let env : TaskEnv := ⟨["t"], fun _ => true, fun _ => true, fun _ => none⟩
       let res := assignWeekendTasks env defaultPolicy
         (taskScarcityMap env [A, B]) ⟨[A, B], [(11, [])], [], []⟩ 10
         [(11, ["t"])] [11]
       ∀ e ∈ res.errors, e.severity = "error" →
         ∀ x ∈ res.workers,
           defaultPolicy.canParticipateInClosing x = true →
           hasNonRitukXOnFriday x 11 = false →
           x.id ∉ (assignsAt res.assignments 11).map (·.2) →
           (4 : Nat) ∈ x.closingHistory) := by
  decide

/-- C7 (amended): each weekend task left unassigned after the tiers yields
exactly one `AssignmentError`, in order, and its severity is "error"
precisely when SOME remaining participation-capable, X-free, unassigned
worker closed the preceding Friday (not when ONLY such workers remain),
else "warning". -/

theorem claim_C7 (env : TaskEnv) (policy : WorkerPolicy) (sc : String → ℚ)
    (st : EngineState) (thursday : Nat)
    (weekendTasks : List (Nat × List String)) (semesterWeeks : List Nat) :
    ((assignWeekendTasks env policy sc st thursday weekendTasks
        semesterWeeks).errors.drop st.errors.length).map (·.taskType) =
      (weekendTiers env policy sc st thursday weekendTasks).unassigned ∧
    ∀ e ∈ (assignWeekendTasks env policy sc st thursday weekendTasks
        semesterWeeks).errors.drop st.errors.length,
      (e.severity = "error" ↔ ∃ x ∈ (missedOptimalPass policy (thursday + 1)
          semesterWeeks (weekendTiers env policy sc st thursday weekendTasks).assignedIds
          (weekendTiers env policy sc st thursday weekendTasks).workers
          (weekendTiers env policy sc st thursday weekendTasks).logs).1,
        policy.canParticipateInClosing x = true ∧
          hasNonRitukXOnFriday x (thursday + 1) = false ∧
          x.id ∉ (weekendTiers env policy sc st thursday weekendTasks).assignedIds ∧
          (thursday + 1 - 7) ∈ x.closingHistory) ∧
      (e.severity = "error" ∨ e.severity = "warning") :=
  weekend_error_severity env policy sc st thursday weekendTasks semesterWeeks

/-- C7 witness: in the counterexample scenario the reported error list
matches the tasks left unassigned by the tiers, task for task. -/
theorem claim_C7_witness :
    ((assignWeekendTasks ⟨["t"], fun _ => true, fun _ => true,
        fun _ => none⟩ defaultPolicy
        (taskScarcityMap ⟨["t"], fun _ => true, fun _ => true, fun _ => none⟩
          [⟨"A", "A", 2, [4], [], [], [], [], ["t"], [], [], 0, 0, 0⟩,
           ⟨"B", "B", 2, [], [], [], [], [], [], [], [], 0, 0, 0⟩])
        ⟨[⟨"A", "A", 2, [4], [], [], [], [], ["t"], [], [], 0, 0, 0⟩,
          ⟨"B", "B", 2, [], [], [], [], [], [], [], [], 0, 0, 0⟩],
         [(11, [])], [], []⟩ 10 [(11, ["t"])] [11]).errors.drop
      ((⟨[⟨"A", "A", 2, [4], [], [], [], [], ["t"], [], [], 0, 0, 0⟩,
          ⟨"B", "B", 2, [], [], [], [], [], [], [], [], 0, 0, 0⟩],
         [(11, [])], [], []⟩ : EngineState).errors.length)).map (·.taskType) =
      (weekendTiers ⟨["t"], fun _ => true, fun _ => true, fun _ => none⟩
        defaultPolicy
        (taskScarcityMap ⟨["t"], fun _ => true, fun _ => true, fun _ => none⟩
          [⟨"A", "A", 2, [4], [], [], [], [], ["t"], [], [], 0, 0, 0⟩,
           ⟨"B", "B", 2, [], [], [], [], [], [], [], [], 0, 0, 0⟩])
        ⟨[⟨"A", "A", 2, [4], [], [], [], [], ["t"], [], [], 0, 0, 0⟩,
          ⟨"B", "B", 2, [], [], [], [], [], [], [], [], 0, 0, 0⟩],
         [(11, [])], [], []⟩ 10 [(11, ["t"])]).unassigned :=
  (claim_C7 ⟨["t"], fun _ => true, fun _ => true, fun _ => none⟩
    defaultPolicy
    (taskScarcityMap ⟨["t"], fun _ => true, fun _ => true, fun _ => none⟩
      [⟨"A", "A", 2, [4], [], [], [], [], ["t"], [], [], 0, 0, 0⟩,
       ⟨"B", "B", 2, [], [], [], [], [], [], [], [], 0, 0, 0⟩])
    ⟨[⟨"A", "A", 2, [4], [], [], [], [], ["t"], [], [], 0, 0, 0⟩,
      ⟨"B", "B", 2, [], [], [], [], [], [], [], [], 0, 0, 0⟩],
     [(11, [])], [], []⟩ 10 [(11, ["t"])] [11]).1

/-- C8 (counterexample): in the spec's scenario (interval 4, required weeks
`[6, 13]`, relief cap 1 over the 13-week semester) the combined closing
weeks are NOT `[6, 10, 13]`: the greedy start segment also picks week 1. -/

theorem claim_C8_counterexample :
    ¬ (combinedWeeks [6, 13] (calcOptimalWeeks {} 4 13 [6, 13]) =
      [6, 10, 13]) := by
  decide

/-- C8 (amended): in that scenario exactly one relief pick is inserted, at
week `6 + 4 = 10`, and the combined required ∪ optimal closing weeks are
`[1, 6, 10, 13]` (the start-gap pick at week 1 included). -/

theorem claim_C8 :
    reliefScan 4 13 1 [6, 13]
        (combinedWeeks [6, 13] (selectOptimalWeeksMinGap 13 [6, 13] 4)) =
      [10] ∧
    combinedWeeks [6, 13] (calcOptimalWeeks {} 4 13 [6, 13]) =
      [1, 6, 10, 13] := by
  decide

/-- C9 (code bug): `select_closers_for_week`'s validation pass does NOT
always restore `closing_history`: the "revert" step
`[d for d in w.closing_history if d != week_friday]` removes EVERY
occurrence of the validated Friday, including one present before the call.
A worker whose history already held Friday 11 (and is required to close it,
so validation runs on them) leaves the call with an empty history instead
of `[11]`. -/

theorem claim_C9 :
    ((selectClosersForWeek ⟨["t"], fun _ => true, fun _ => true, fun _ => none⟩
        defaultPolicy {}
        [⟨"A", "A", 2, [11], [11], [], [], [], [], [], [], 0, 0, 0⟩]
        11 []).2).map (fun w => w.closingHistory) = [[]] := by
  decide

/-- C10: the calculator's date outputs never depend on `closing_history`:
two workers agreeing on `closing_interval`, `x_tasks` and
`weekends_home_owed` (the last is only passed through) get identical
`required_dates` and `optimal_dates` for the same semester weeks, whatever
their histories. -/

theorem claim_C10 (cfg : CalcConfig) (w₁ w₂ : Worker) (s : List Nat)
    (h1 : w₁.closingInterval = w₂.closingInterval)
    (h2 : w₁.xTasks = w₂.xTasks)
    (h3 : w₁.weekendsHomeOwed = w₂.weekendsHomeOwed) :
    (calcWorkerClosingSchedule cfg w₁ s).requiredDates =
      (calcWorkerClosingSchedule cfg w₂ s).requiredDates ∧
    (calcWorkerClosingSchedule cfg w₁ s).optimalDates =
      (calcWorkerClosingSchedule cfg w₂ s).optimalDates :=
  calc_ignores_history cfg w₁ w₂ s h1 h2

/-- C10 witness: two workers with different closing histories but the same
interval and X tasks get the same dates. -/

theorem claim_C10_witness :
    (calcWorkerClosingSchedule {}
        ⟨"A", "A", 3, [4], [], [], [(11, "x")], [], [], [], [], 0, 0, 0⟩
        [4, 11, 18, 25]).requiredDates =
      (calcWorkerClosingSchedule {}
        ⟨"B", "B", 3, [11, 18], [], [], [(11, "x")], [], [], [], [], 0, 0, 0⟩
        [4, 11, 18, 25]).requiredDates ∧
    (calcWorkerClosingSchedule {}
        ⟨"A", "A", 3, [4], [], [], [(11, "x")], [], [], [], [], 0, 0, 0⟩
        [4, 11, 18, 25]).optimalDates =
      (calcWorkerClosingSchedule {}
        ⟨"B", "B", 3, [11, 18], [], [], [(11, "x")], [], [], [], [], 0, 0, 0⟩
        [4, 11, 18, 25]).optimalDates :=
  claim_C10 {}
    ⟨"A", "A", 3, [4], [], [], [(11, "x")], [], [], [], [], 0, 0, 0⟩
    ⟨"B", "B", 3, [11, 18], [], [], [(11, "x")], [], [], [], [], 0, 0, 0⟩
    [4, 11, 18, 25] rfl rfl rfl

end Scheduler
